import Mathlib

/-!
Verification development for the Datasets-Convertor repository (src/app.py).

Strings are modelled as lists of Unicode code points (List Nat), byte
strings as lists of byte values (List Nat, each < 256).  Python dynamic
values are modelled by the inductive type PyVal below; mappings are
modelled with string keys, which is the shape produced by the table
library for data-frame rows (column label to cell value).
-/

namespace DatasetsConvertor

/-- Code points of a Lean string literal, used to spell out the string
constants appearing in src/app.py. -/
def codes (s : String) : List Nat := s.data.map Char.toNat

/-- Characters removed by the regular expression
[\x00-\x08\x0B\x0C\x0E-\x1F] in sanitize_value (src/app.py lines 29/31/33). -/
def isIllegalCtrl (c : Nat) : Bool :=
  decide (c ≤ 8 ∨ c = 11 ∨ c = 12 ∨ (14 ≤ c ∧ c ≤ 31))

/-- re.sub with the pattern above and empty replacement: drop every
matching character, keep the rest. -/
def stripCtrl (s : List Nat) : List Nat := s.filter (fun c => !(isIllegalCtrl c))

/-- Is b a UTF-8 continuation byte (0x80-0xBF)? -/
def isCont (b : Nat) : Bool := decide (128 ≤ b ∧ b ≤ 191)

/-- Models bytes.decode("utf-8", errors="replace") from src/app.py lines 25
and 124: decode a byte list to a code-point list, replacing each maximal
ill-formed subsequence with U+FFFD.  Overlong encodings and surrogate
ranges are rejected exactly as CPython rejects them; an ASCII byte is
never consumed as part of an ill-formed sequence. -/
def utf8DecodeReplace : List Nat → List Nat
  | [] => []
  | b1 :: rest =>
    if b1 < 128 then
      b1 :: utf8DecodeReplace rest
    else if b1 < 194 then
      -- stray continuation byte, or overlong lead 0xC0/0xC1
      65533 :: utf8DecodeReplace rest
    else if b1 < 224 then
      -- two-byte sequence
      match rest with
      | [] => [65533]
      | b2 :: rest2 =>
        if isCont b2 then
          ((b1 - 192) * 64 + (b2 - 128)) :: utf8DecodeReplace rest2
        else
          65533 :: utf8DecodeReplace (b2 :: rest2)
    else if b1 < 240 then
      -- three-byte sequence; lead 0xE0 narrows b2 to 0xA0-0xBF (overlong),
      -- lead 0xED narrows b2 to 0x80-0x9F (surrogates)
      match rest with
      | [] => [65533]
      | b2 :: rest2 =>
        if isCont b2 ∧ (b1 = 224 → 160 ≤ b2) ∧ (b1 = 237 → b2 ≤ 159) then
          match rest2 with
          | [] => [65533]
          | b3 :: rest3 =>
            if isCont b3 then
              ((b1 - 224) * 4096 + (b2 - 128) * 64 + (b3 - 128)) :: utf8DecodeReplace rest3
            else
              65533 :: utf8DecodeReplace (b3 :: rest3)
        else
          65533 :: utf8DecodeReplace (b2 :: rest2)
    else if b1 < 245 then
      -- four-byte sequence; lead 0xF0 narrows b2 to 0x90-0xBF (overlong),
      -- lead 0xF4 narrows b2 to 0x80-0x8F (beyond U+10FFFF)
      match rest with
      | [] => [65533]
      | b2 :: rest2 =>
        if isCont b2 ∧ (b1 = 240 → 144 ≤ b2) ∧ (b1 = 244 → b2 ≤ 143) then
          match rest2 with
          | [] => [65533]
          | b3 :: rest3 =>
            if isCont b3 then
              match rest3 with
              | [] => [65533]
              | b4 :: rest4 =>
                if isCont b4 then
                  ((b1 - 240) * 262144 + (b2 - 128) * 4096 + (b3 - 128) * 64 + (b4 - 128))
                    :: utf8DecodeReplace rest4
                else
                  65533 :: utf8DecodeReplace (b4 :: rest4)
            else
              65533 :: utf8DecodeReplace (b3 :: rest3)
        else
          65533 :: utf8DecodeReplace (b2 :: rest2)
    else
      -- invalid lead byte 0xF5-0xFF
      65533 :: utf8DecodeReplace rest

/-- Python dynamic values as they occur in this program: None, booleans,
integers, text strings, byte strings, lists, dicts (string keys, the
shape of data-frame records), and any other scalar object the table
library boxes into a record — a pandas Timestamp from a datetime
column, a decimal.Decimal, a numpy ndarray from a list column, and so
on.  The obj constructor carries such a value abstractly as its Python
type name together with its textual representation; both sanitizers
return these values unchanged (they are neither bytes, str, dict nor
list), and json.dumps rejects them. -/
inductive PyVal where
  | noneV : PyVal
  | bool (b : Bool) : PyVal
  | int (n : Int) : PyVal
  | str (s : List Nat) : PyVal
  | bytes (bs : List Nat) : PyVal
  | list (xs : List PyVal) : PyVal
  | dict (kvs : List (List Nat × PyVal)) : PyVal
  | obj (ty : String) (r : List Nat) : PyVal

/-- Lowercase hexadecimal digit, as Python prints escape sequences. -/
def hexDigit (n : Nat) : Nat := if n < 10 then 48 + n else 87 + n

/-- Two lowercase hexadecimal digits. -/
def hex2 (n : Nat) : List Nat := [hexDigit (n / 16 % 16), hexDigit (n % 16)]

/-- Four lowercase hexadecimal digits. -/
def hex4 (n : Nat) : List Nat :=
  [hexDigit (n / 4096 % 16), hexDigit (n / 256 % 16), hexDigit (n / 16 % 16), hexDigit (n % 16)]

/-- Decimal digits of a natural number, as Python prints integers. -/
def natRepr (n : Nat) : List Nat :=
  if h : n < 10 then [48 + n] else natRepr (n / 10) ++ [48 + n % 10]
decreasing_by exact Nat.div_lt_self (by omega) (by omega)

/-- Decimal rendering of an integer, as Python prints integers. -/
def intRepr : Int → List Nat
  | .ofNat n => natRepr n
  | .negSucc n => 45 :: natRepr (n + 1)

/-- Quote character chosen by Python repr for a text string: a single
quote, unless the string contains a single quote and no double quote. -/
def pyQuote (s : List Nat) : Nat := if 39 ∈ s ∧ ¬ 34 ∈ s then 34 else 39

/-- One character of the body of a Python string repr, for quote q.
Code points at or above 0x80 are kept as-is; Python additionally escapes
non-printable ones among them, which none of the properties below depends
on. -/
def pyReprStrChar (q : Nat) (c : Nat) : List Nat :=
  if c = 92 then [92, 92]
  else if c = q then [92, q]
  else if c = 10 then [92, 110]
  else if c = 13 then [92, 114]
  else if c = 9 then [92, 116]
  else if c < 32 ∨ c = 127 then 92 :: 120 :: hex2 c
  else [c]

/-- Python repr of a text string. -/
def pyReprStr (s : List Nat) : List Nat :=
  pyQuote s :: s.flatMap (pyReprStrChar (pyQuote s)) ++ [pyQuote s]

/-- One byte of the body of a Python bytes repr, for quote q. -/
def pyReprByte (q : Nat) (c : Nat) : List Nat :=
  if c = 92 then [92, 92]
  else if c = q then [92, q]
  else if c = 10 then [92, 110]
  else if c = 13 then [92, 114]
  else if c = 9 then [92, 116]
  else if c < 32 ∨ 127 ≤ c then 92 :: 120 :: hex2 c
  else [c]

/-- Python repr of a byte string, b followed by the quoted body. -/
def pyReprBytes (bs : List Nat) : List Nat :=
  98 :: pyQuote bs :: bs.flatMap (pyReprByte (pyQuote bs)) ++ [pyQuote bs]

mutual

/-- Models the Python textual representation str(val) (equal to repr(val)
for dicts and lists) used in src/app.py line 33. -/
def pyRepr : PyVal → List Nat
  | .noneV => codes ("None")
  | .bool true => codes ("True")
  | .bool false => codes ("False")
  | .int n => intRepr n
  | .str s => pyReprStr s
  | .bytes bs => pyReprBytes bs
  | .list xs => 91 :: pyReprList xs ++ [93]
  | .dict kvs => 123 :: pyReprDict kvs ++ [125]
  | .obj _ r => r

/-- Comma-separated reprs of the elements of a list. -/
def pyReprList : List PyVal → List Nat
  | [] => []
  | [x] => pyRepr x
  | x :: y :: xs => pyRepr x ++ codes (", ") ++ pyReprList (y :: xs)

/-- Comma-separated key: value reprs of the entries of a dict. -/
def pyReprDict : List (List Nat × PyVal) → List Nat
  | [] => []
  | [(k, v)] => pyReprStr k ++ codes (": ") ++ pyRepr v
  | (k, v) :: kv :: kvs =>
      pyReprStr k ++ codes (": ") ++ pyRepr v ++ codes (", ") ++ pyReprDict (kv :: kvs)

end

/-- sanitize_value from src/app.py lines 12-35: convert byte strings,
text strings and structured values to a control-character-free string,
return every other value unchanged.  The try/except around the decode
call in the source is dead code, because decoding with errors="replace"
never raises. -/
def sanitize_value : PyVal → PyVal
  | .bytes bs => .str (stripCtrl (utf8DecodeReplace bs))
  | .str s => .str (stripCtrl s)
  | .list xs => .str (stripCtrl (pyRepr (.list xs)))
  | .dict kvs => .str (stripCtrl (pyRepr (.dict kvs)))
  | v => v

mutual

/-- recursive_sanitize from src/app.py lines 122-130: decode byte strings
to text, recurse into dicts and lists, keep everything else. -/
def recursive_sanitize : PyVal → PyVal
  | .bytes bs => .str (utf8DecodeReplace bs)
  | .dict kvs => .dict (recSanitizeDict kvs)
  | .list xs => .list (recSanitizeList xs)
  | v => v

/-- recursive_sanitize applied to each element of a list. -/
def recSanitizeList : List PyVal → List PyVal
  | [] => []
  | x :: xs => recursive_sanitize x :: recSanitizeList xs

/-- recursive_sanitize applied to each value of a dict. -/
def recSanitizeDict : List (List Nat × PyVal) → List (List Nat × PyVal)
  | [] => []
  | (k, v) :: kvs => (k, recursive_sanitize v) :: recSanitizeDict kvs

end

/-- One character of a JSON string body as json.dumps renders it: the
two-character escapes, \uXXXX for other control characters, and, when
ensure_ascii is set, \uXXXX (or a surrogate pair) for every code point
above 0x7e. -/
def jsonEscChar (ea : Bool) (c : Nat) : List Nat :=
  if c = 34 then [92, 34]
  else if c = 92 then [92, 92]
  else if c = 10 then [92, 110]
  else if c = 13 then [92, 114]
  else if c = 9 then [92, 116]
  else if c = 8 then [92, 98]
  else if c = 12 then [92, 102]
  else if c < 32 then 92 :: 117 :: hex4 c
  else if ea ∧ 126 < c then
    if c < 65536 then 92 :: 117 :: hex4 c
    else (92 :: 117 :: hex4 (55296 + (c - 65536) / 1024)) ++
         (92 :: 117 :: hex4 (56320 + (c - 65536) % 1024))
  else [c]

/-- A JSON string literal: quoted, body escaped. -/
def jsonStr (ea : Bool) (s : List Nat) : List Nat := 34 :: s.flatMap (jsonEscChar ea) ++ [34]

mutual

/-- Models json.dumps(v, ensure_ascii=ea) with the default separators,
as called in src/app.py lines 101, 105 (ensure_ascii defaulting to True)
and line 136 (ensure_ascii=False).  Byte strings and the other boxed
objects (Timestamp, Decimal, ndarray, ...) are not JSON serializable:
dumping one raises TypeError, modelled as an error carrying the
TypeError message. -/
def jsonDumps (ea : Bool) : PyVal → Except String (List Nat)
  | .noneV => .ok (codes ("null"))
  | .bool true => .ok (codes ("true"))
  | .bool false => .ok (codes ("false"))
  | .int n => .ok (intRepr n)
  | .str s => .ok (jsonStr ea s)
  | .bytes _ => .error ("Object of type bytes is not JSON serializable")
  | .obj ty _ => .error ("Object of type " ++ ty ++ " is not JSON serializable")
  | .list xs =>
      match jsonDumpsList ea xs with
      | .error e => .error e
      | .ok parts => .ok (91 :: parts ++ [93])
  | .dict kvs =>
      match jsonDumpsDict ea kvs with
      | .error e => .error e
      | .ok parts => .ok (123 :: parts ++ [125])

/-- Comma-separated dumps of the elements of a JSON array. -/
def jsonDumpsList (ea : Bool) : List PyVal → Except String (List Nat)
  | [] => .ok []
  | [x] => jsonDumps ea x
  | x :: y :: xs =>
      match jsonDumps ea x, jsonDumpsList ea (y :: xs) with
      | .ok dx, .ok rest => .ok (dx ++ codes (", ") ++ rest)
      | .error e, _ => .error e
      | _, .error e => .error e

/-- Comma-separated key: value dumps of the entries of a JSON object. -/
def jsonDumpsDict (ea : Bool) : List (List Nat × PyVal) → Except String (List Nat)
  | [] => .ok []
  | [(k, v)] =>
      match jsonDumps ea v with
      | .ok dv => .ok (jsonStr ea k ++ codes (": ") ++ dv)
      | .error e => .error e
  | (k, v) :: kv :: kvs =>
      match jsonDumps ea v, jsonDumpsDict ea (kv :: kvs) with
      | .ok dv, .ok rest => .ok (jsonStr ea k ++ codes (": ") ++ dv ++ codes (", ") ++ rest)
      | .error e, _ => .error e
      | _, .error e => .error e

end

/-! ## Input resolution (src/app.py lines 51-65) -/

/-- Models str.lower character-wise; the file names compared against the
literal extensions csv and parquet are handled exactly on the ASCII
range. -/
def lowerChar (c : Nat) : Nat := if 65 ≤ c ∧ c ≤ 90 then c + 32 else c

/-- str.lower on a whole string. -/
def lowerStr (s : List Nat) : List Nat := s.map lowerChar

/-- Python str.split with separator character . (code 46): the list of
chunks between the dots; a string with no dot yields the single chunk
equal to the whole string. -/
def splitDot : List Nat → List (List Nat)
  | [] => [[]]
  | c :: rest =>
    match splitDot rest with
    | [] => [[]]
    | s :: ss => if c = 46 then [] :: s :: ss else (c :: s) :: ss

/-- file_name.lower().split('.')[-1] from src/app.py line 65. -/
def extensionOf (name : List Nat) : List Nat := (splitDot (lowerStr name)).getLastD []

/-- The resolved input file of src/app.py lines 56-64: whether the caller
passed a file-like object (read in memory, lines 59-60) or a path string
(opened and read from disk, lines 61-64), the converter ends up holding a
file name and the raw bytes. -/
structure UploadedFile where
  name : List Nat
  content : List Nat

/-! ## External collaborators: the HTTP client and the table library -/

/-- A response of requests.get: a status code and a body. -/
structure HttpResponse where
  statusCode : Nat
  content : List Nat

/-- An in-memory table: named columns and rows of cell values. -/
structure DataFrame where
  columns : List (List Nat)
  rows : List (List PyVal)

/-- The external reading routines the converter calls: pd.read_csv with
the default encoding (line 71), pd.read_csv with encoding='latin1'
(line 91), pd.read_parquet (lines 81, 112, 116, 143, 147) and
requests.get (lines 114, 145).  Parsing a malformed payload is an error
that the converter propagates unhandled. -/
structure Env where
  readCsv : List Nat → Except String DataFrame
  readCsvLatin1 : List Nat → Except String DataFrame
  readParquet : List Nat → Except String DataFrame
  http : List Nat → HttpResponse

/-- Content of a file written by the converter: JSONL text written line
by line, or a table handed to the parquet, csv or xlsx writer. -/
inductive FileContent where
  | text (s : List Nat)
  | parquetOf (df : DataFrame)
  | csvOf (df : DataFrame)
  | xlsxOf (rows : List (List PyVal))

/-- Failure taxonomy: ValueError raised by the converter itself
(InvalidInput in the specification), requests raise_for_status
(RemoteFetchError), a propagated parse failure of the table library, and
a propagated json.dumps TypeError. -/
inductive ConvError where
  | invalidInput (msg : String)
  | remoteFetchError (statusCode : Nat)
  | parseError (msg : String)
  | serializeError (msg : String)

/-- Observable result of one converter call: the returned output file
name or the raised error, the files created on disk (with the content
they hold when the call ends), and the URLs fetched.  The second return
value of the source, the informational message built on lines 166-171
from the file name and the pandas head(10).to_string rendering, is
presentation text and is not modelled. -/
structure ConvResult where
  outcome : Except ConvError String
  files : List (String × FileContent)
  fetches : List (List Nat)

/-! ## String constants of src/app.py -/

def csvToParquetLabel : String := "CSV to Parquet"

def parquetToCsvLabel : String := "Parquet to CSV"

def csvToJsonlLabel : String := "CSV to JSONL"

def parquetToJsonlLabel : String := "Parquet to JSONL"

def parquetToXlsLabel : String := "Parquet to XLS"

def csvToParquetMsg : String := "For CSV to Parquet conversion, please upload a CSV file. 📄"

def parquetToCsvMsg : String := "For Parquet to CSV conversion, please upload a Parquet file. 📄"

def csvToJsonlMsg : String := "For CSV to JSONL conversion, please upload a CSV file. 📄"

def parquetToJsonlMsg : String := "For Parquet to JSONL conversion, please upload a file or provide a URL. 🌐"

def parquetToXlsMsg : String := "For Parquet to XLS conversion, please upload a file or provide a URL. 🌐"

def invalidTypeMsg : String := "Invalid conversion type selected. ⚠️"

def outputParquetFile : String := "output.parquet"

def outputCsvFile : String := "output.csv"

def metadataJsonlFile : String := "metadata.jsonl"

def outputJsonlFile : String := "output.jsonl"

def outputXlsxFile : String := "output.xlsx"

def csvExt : List Nat := codes ("csv")

def parquetExt : List Nat := codes ("parquet")

def fileNameKey : List Nat := codes ("file_name")

def groundTruthKey : List Nat := codes ("ground_truth")

/-! ## The conversion engine (src/app.py lines 39-172) -/

/-- response.raise_for_status() raises exactly for the client-error and
server-error status code ranges, 400-599. -/
def httpError (status : Nat) : Bool := decide (400 ≤ status ∧ status < 600)

/-- The with open(...): for ...: f.write(json.dumps(..) + newline) loops
of src/app.py lines 103-105 and 133-136: encode the rows one at a time,
appending each encoded line plus a newline to the freshly created file;
an encoding failure aborts the loop and leaves the lines already written
in the file. -/
def writeJsonLines {α : Type} (enc : α → Except ConvError (List Nat)) :
    List α → Except ConvError Unit × List Nat
  | [] => (.ok (), [])
  | r :: rest =>
    match enc r with
    | .error e => (.error e, [])
    | .ok l =>
      let tail := writeJsonLines enc rest
      (tail.1, l ++ 10 :: tail.2)

/-- row[column]: label-based cell access in a data-frame row, the first
column with the given label. -/
def rowLookup (cols : List (List Nat)) (row : List PyVal) (k : List Nat) : PyVal :=
  ((cols.zip row).lookup k).getD PyVal.noneV

/-- A Python dict assignment data[k] = v: overwrite the value in place if
the key is present, append the entry otherwise. -/
def pyDictSet (d : List (List Nat × PyVal)) (k : List Nat) (v : PyVal) :
    List (List Nat × PyVal) :=
  if d.any (fun p => p.1 == k) then
    d.map (fun p => if p.1 == k then (p.1, v) else p)
  else d ++ [(k, v)]

/-- The inner loop of src/app.py lines 96-100: walk the columns, capture
the value of the column literally named file_name (None if absent), and
build the dict of column to value. -/
def buildRowState (cols : List (List Nat)) (row : List PyVal) :
    PyVal × List (List Nat × PyVal) :=
  cols.foldl (fun acc col =>
    let v := rowLookup cols row col
    ((if col = fileNameKey then v else acc.1), pyDictSet acc.2 col v))
    (PyVal.noneV, [])

/-- One element of total_data (src/app.py lines 94-102): the captured
file_name value and the json.dumps(data) string; json.dumps runs here,
before the output file is opened. -/
def buildRowData (cols : List (List Nat)) (row : List PyVal) :
    Except ConvError (PyVal × List Nat) :=
  match jsonDumps true (.dict (buildRowState cols row).2) with
  | .ok gt => .ok ((buildRowState cols row).1, gt)
  | .error e => .error (.serializeError e)

/-- total_data for a whole list of rows (the loop of src/app.py lines
93-102, appending one row_data per row); the first json.dumps failure
aborts the loop. -/
def buildTotalData (cols : List (List Nat)) : List (List PyVal) →
    Except ConvError (List (PyVal × List Nat))
  | [] => .ok []
  | row :: rest =>
    match buildRowData cols row, buildTotalData cols rest with
    | .ok rd, .ok rds => .ok (rd :: rds)
    | .error e, _ => .error e
    | _, .error e => .error e

/-- The line written for one row (src/app.py lines 101 and 105):
json.dumps of the dict with the keys file_name and ground_truth, with
the default ensure_ascii=True. -/
def csvJsonlLineEnc (rd : PyVal × List Nat) : Except ConvError (List Nat) :=
  match jsonDumps true (.dict [(fileNameKey, rd.1), (groundTruthKey, .str rd.2)]) with
  | .ok l => .ok l
  | .error e => .error (.serializeError e)

/-- records = df.to_dict(orient="records") (src/app.py line 132): one
dict of column to value per row. -/
def dfRecords (df : DataFrame) : List (List (List Nat × PyVal)) :=
  df.rows.map (fun r => df.columns.zip r)

/-- The line written for one record (src/app.py lines 134-136):
json.dumps of the recursively sanitized record, with ensure_ascii=False. -/
def parquetJsonlLineEnc (rec : List (List Nat × PyVal)) : Except ConvError (List Nat) :=
  match jsonDumps false (recursive_sanitize (.dict rec)) with
  | .ok l => .ok l
  | .error e => .error (.serializeError e)

/-- Source resolution shared by the Parquet to JSONL and Parquet to XLS
branches (src/app.py lines 111-119 and 142-150): an uploaded file takes
precedence; otherwise, a non-empty URL is fetched (raise_for_status on a
4xx/5xx status); otherwise the branch fails with the given ValueError
message.  Returns the parsed data frame or the error, together with the
list of URLs fetched. -/
def parquetSource (env : Env) (input_file : Option UploadedFile) (parquet_url : List Nat)
    (missingMsg : String) : Except ConvError DataFrame × List (List Nat) :=
  match input_file with
  | some f =>
    (match env.readParquet f.content with
     | .ok df => .ok df
     | .error m => .error (.parseError m), [])
  | none =>
    if parquet_url ≠ [] then
      let resp := env.http parquet_url
      if httpError resp.statusCode then
        (.error (.remoteFetchError resp.statusCode), [parquet_url])
      else
        (match env.readParquet resp.content with
         | .ok df => .ok df
         | .error m => .error (.parseError m), [parquet_url])
    else (.error (.invalidInput missingMsg), [])

/-- dataset_converter from src/app.py lines 39-172: dispatch on the
conversion_type label, validate the input, run the selected conversion
and record the written files.  The sheet handed to the xlsx writer is
the header row of column names followed by the rows with every cell
passed through sanitize_value (lines 153-159). -/
def dataset_converter (env : Env) (input_file : Option UploadedFile)
    (conversion_type : String) (parquet_url : List Nat) : ConvResult :=
  if conversion_type = csvToParquetLabel then
    match input_file with
    | none => ⟨.error (.invalidInput csvToParquetMsg), [], []⟩
    | some f =>
      if extensionOf f.name ≠ csvExt then ⟨.error (.invalidInput csvToParquetMsg), [], []⟩
      else
        match env.readCsv f.content with
        | .error m => ⟨.error (.parseError m), [], []⟩
        | .ok df => ⟨.ok outputParquetFile, [(outputParquetFile, .parquetOf df)], []⟩
  else if conversion_type = parquetToCsvLabel then
    match input_file with
    | none => ⟨.error (.invalidInput parquetToCsvMsg), [], []⟩
    | some f =>
      if extensionOf f.name ≠ parquetExt then ⟨.error (.invalidInput parquetToCsvMsg), [], []⟩
      else
        match env.readParquet f.content with
        | .error m => ⟨.error (.parseError m), [], []⟩
        | .ok df => ⟨.ok outputCsvFile, [(outputCsvFile, .csvOf df)], []⟩
  else if conversion_type = csvToJsonlLabel then
    match input_file with
    | none => ⟨.error (.invalidInput csvToJsonlMsg), [], []⟩
    | some f =>
      if extensionOf f.name ≠ csvExt then ⟨.error (.invalidInput csvToJsonlMsg), [], []⟩
      else
        match env.readCsvLatin1 f.content with
        | .error m => ⟨.error (.parseError m), [], []⟩
        | .ok df =>
          match buildTotalData df.columns df.rows with
          | .error e => ⟨.error e, [], []⟩
          | .ok total =>
            let wr := writeJsonLines csvJsonlLineEnc total
            ⟨(match wr.1 with
              | .ok _ => .ok metadataJsonlFile
              | .error e => .error e),
             [(metadataJsonlFile, .text wr.2)], []⟩
  else if conversion_type = parquetToJsonlLabel then
    match parquetSource env input_file parquet_url parquetToJsonlMsg with
    | (.error e, fs) => ⟨.error e, [], fs⟩
    | (.ok df, fs) =>
      let wr := writeJsonLines parquetJsonlLineEnc (dfRecords df)
      ⟨(match wr.1 with
        | .ok _ => .ok outputJsonlFile
        | .error e => .error e),
       [(outputJsonlFile, .text wr.2)], fs⟩
  else if conversion_type = parquetToXlsLabel then
    match parquetSource env input_file parquet_url parquetToXlsMsg with
    | (.error e, fs) => ⟨.error e, [], fs⟩
    | (.ok df, fs) =>
      ⟨.ok outputXlsxFile,
       [(outputXlsxFile,
         .xlsxOf ((df.columns.map PyVal.str) :: df.rows.map (fun r => r.map sanitize_value)))],
       fs⟩
  else
    ⟨.error (.invalidInput invalidTypeMsg), [], []⟩

/-! ## Shared concrete sample objects -/

/-- A one-column, one-row sample table. -/
def dfSample : DataFrame := ⟨[codes ("a")], [[PyVal.str [104]]]⟩

/-- An environment whose readers all succeed with the sample table and
whose HTTP client answers 200. -/
def envOk : Env :=
  ⟨fun _ => .ok dfSample, fun _ => .ok dfSample, fun _ => .ok dfSample, fun _ => ⟨200, [1]⟩⟩

/-- An environment whose HTTP client answers 404. -/
def envHttp404 : Env :=
  ⟨fun _ => .ok dfSample, fun _ => .ok dfSample, fun _ => .ok dfSample, fun _ => ⟨404, []⟩⟩

/-- An environment whose readers all fail to parse. -/
def envParseErr : Env :=
  ⟨fun _ => .error ("boom"), fun _ => .error ("boom"), fun _ => .error ("boom"),
   fun _ => ⟨200, []⟩⟩

/-- A sample uploaded file named a.csv. -/
def fileACsv : UploadedFile := ⟨codes ("a.csv"), [0]⟩

/-! ## Generic helper lemmas -/

theorem stripCtrl_stripCtrl (s : List Nat) : stripCtrl (stripCtrl s) = stripCtrl s := by
  simp [stripCtrl, List.filter_filter]

theorem stripCtrl_not_illegal {s : List Nat} {c : Nat} (h : c ∈ stripCtrl s) :
    isIllegalCtrl c = false := by
  have := List.of_mem_filter h
  simpa using this

theorem count_stripCtrl (s : List Nat) {c : Nat} (h : isIllegalCtrl c = false) :
    (stripCtrl s).count c = s.count c := by
  unfold stripCtrl
  induction s with
  | nil => rfl
  | cons a s ih =>
    rw [List.filter_cons]
    by_cases hill : isIllegalCtrl a = true
    · have hac : (a = c) = False := by
        refine eq_false fun he => ?_
        rw [he, h] at hill
        cases hill
      simp [hill, List.count_cons, hac, ih]
    · simp only [Bool.not_eq_true] at hill
      simp [hill, List.count_cons, ih]

/-! ## Claim C6 -/

/-- Claim C6: the sanitizer is idempotent: applying sanitize_value twice
yields the same result as applying it once, for every input value. -/
theorem claim_c6 (v : PyVal) : sanitize_value (sanitize_value v) = sanitize_value v := by
  cases v <;> simp [sanitize_value, stripCtrl_stripCtrl]

/-! ## Claim C7 -/

/-- Claim C7: for every structured input value (a mapping or a sequence),
sanitize_value returns the textual representation of the value with the
illegal control characters stripped; in particular the result is a
string, never the structure itself. -/
theorem claim_c7 (v : PyVal)
    (h : (∃ xs, v = PyVal.list xs) ∨ (∃ kvs, v = PyVal.dict kvs)) :
    sanitize_value v = PyVal.str (stripCtrl (pyRepr v)) := by
  rcases h with ⟨xs, rfl⟩ | ⟨kvs, rfl⟩ <;> rfl

theorem claim_c7_witness :
    sanitize_value (PyVal.list []) = PyVal.str (stripCtrl (pyRepr (PyVal.list []))) :=
  claim_c7 (PyVal.list []) (Or.inl ⟨[], rfl⟩)

/-! ## Claim C2 (corrected: the actual message carries a trailing warning
emoji, so it is not literally the string the claim names) -/

/-- Claim C2, counterexample to the literal message: an unrecognized
label does fail with the invalid-type error, but its message is
"Invalid conversion type selected. ⚠️", which differs from the claimed
"Invalid conversion type selected.". -/
theorem claim_c2_counterexample :
    (dataset_converter envOk Option.none ("CSV to XLSX") []).outcome =
      Except.error (.invalidInput invalidTypeMsg) ∧
    invalidTypeMsg ≠ "Invalid conversion type selected." :=
  ⟨rfl, by decide⟩

/-- Claim C2 as amended: for every request whose conversion type is none
of the five recognized labels, the conversion fails with the
invalid-type ValueError message (the claimed text followed by a warning
emoji), no conversion routine runs, no file is written and no URL is
fetched. -/
theorem claim_c2 (env : Env) (input_file : Option UploadedFile) (t : String) (url : List Nat)
    (h1 : t ≠ csvToParquetLabel) (h2 : t ≠ parquetToCsvLabel) (h3 : t ≠ csvToJsonlLabel)
    (h4 : t ≠ parquetToJsonlLabel) (h5 : t ≠ parquetToXlsLabel) :
    dataset_converter env input_file t url =
      ⟨Except.error (.invalidInput invalidTypeMsg), [], []⟩ := by
  simp [dataset_converter, h1, h2, h3, h4, h5]

theorem claim_c2_witness :
    dataset_converter envOk Option.none ("Anything else") [] =
      ⟨Except.error (.invalidInput invalidTypeMsg), [], []⟩ :=
  claim_c2 envOk Option.none ("Anything else") []
    (by decide) (by decide) (by decide) (by decide) (by decide)

/-! ## Claim C3 (corrected: a name with no dot yields the whole
lowercased name as the extension, not the empty string) -/

theorem splitDot_ne_nil (l : List Nat) : splitDot l ≠ [] := by
  cases l with
  | nil => simp [splitDot]
  | cons c rest =>
    unfold splitDot
    cases h : splitDot rest with
    | nil => simp
    | cons s ss =>
      dsimp only
      split <;> exact List.cons_ne_nil _ _

theorem splitDot_cons_46 {rest : List Nat} {s : List Nat} {ss : List (List Nat)}
    (h : splitDot rest = s :: ss) : splitDot (46 :: rest) = [] :: s :: ss := by
  unfold splitDot
  rw [h]
  simp

theorem splitDot_cons_ne {c : Nat} {rest : List Nat} {s : List Nat} {ss : List (List Nat)}
    (hc : c ≠ 46) (h : splitDot rest = s :: ss) : splitDot (c :: rest) = (c :: s) :: ss := by
  unfold splitDot
  rw [h]
  simp [hc]

theorem getLastD_cons_ne_nil {α : Type} (a d : α) {l : List α} (h : l ≠ []) :
    (a :: l).getLastD d = l.getLastD d := by
  obtain ⟨b, l', rfl⟩ := List.exists_cons_of_ne_nil h
  rw [List.getLastD_cons, List.getLastD_cons, List.getLastD_cons]

theorem splitDot_no_dot (l : List Nat) (h : 46 ∉ l) : splitDot l = [l] := by
  induction l with
  | nil => rfl
  | cons c rest ih =>
    have hc : c ≠ 46 := fun hc => h (hc ▸ List.mem_cons_self c rest)
    have hr : 46 ∉ rest := fun hr => h (List.mem_cons_of_mem c hr)
    unfold splitDot
    rw [ih hr]
    simp [hc]

theorem splitDot_two_chunks (l : List Nat) (h : 46 ∈ l) :
    ∃ s ss, splitDot l = s :: ss ∧ ss ≠ [] := by
  induction l with
  | nil => cases h
  | cons c rest ih =>
    by_cases hc : c = 46
    · subst hc
      obtain ⟨s, ss, hsplit⟩ := List.exists_cons_of_ne_nil (splitDot_ne_nil rest)
      exact ⟨[], s :: ss, splitDot_cons_46 hsplit, by simp⟩
    · have hr : 46 ∈ rest := by
        rcases List.mem_cons.mp h with h46 | h46
        · exact absurd h46.symm hc
        · exact h46
      obtain ⟨s, ss, hsplit, hss⟩ := ih hr
      exact ⟨c :: s, ss, splitDot_cons_ne hc hsplit, hss⟩

theorem splitDot_last_spec (l : List Nat) (h : 46 ∈ l) :
    ∃ pre, l = pre ++ 46 :: (splitDot l).getLastD [] ∧
      46 ∉ (splitDot l).getLastD [] := by
  induction l with
  | nil => cases h
  | cons c rest ih =>
    by_cases hc : c = 46
    · subst hc
      by_cases hr : 46 ∈ rest
      · obtain ⟨pre, heq, hnot⟩ := ih hr
        obtain ⟨s, ss, hsplit, hss⟩ := splitDot_two_chunks rest hr
        have hlast : (splitDot (46 :: rest)).getLastD [] = (splitDot rest).getLastD [] := by
          rw [splitDot_cons_46 hsplit, hsplit]
          exact getLastD_cons_ne_nil [] [] (List.cons_ne_nil s ss)
        refine ⟨46 :: pre, ?_, by rw [hlast]; exact hnot⟩
        rw [hlast]
        simpa using heq
      · have hsplit := splitDot_no_dot rest hr
        have hlast : (splitDot (46 :: rest)).getLastD [] = rest := by
          rw [splitDot_cons_46 hsplit]
          simp [List.getLastD_cons]
        refine ⟨[], ?_, by rw [hlast]; exact hr⟩
        rw [hlast]
        rfl
    · have hr : 46 ∈ rest := by
        rcases List.mem_cons.mp h with h46 | h46
        · exact absurd h46.symm hc
        · exact h46
      obtain ⟨pre, heq, hnot⟩ := ih hr
      obtain ⟨s, ss, hsplit, hss⟩ := splitDot_two_chunks rest hr
      have hlast : (splitDot (c :: rest)).getLastD [] = (splitDot rest).getLastD [] := by
        rw [splitDot_cons_ne hc hsplit, hsplit,
          getLastD_cons_ne_nil (c :: s) [] hss, getLastD_cons_ne_nil s [] hss]
      refine ⟨c :: pre, ?_, by rw [hlast]; exact hnot⟩
      rw [hlast]
      simpa using heq

theorem lowerChar_eq_46 {c : Nat} : lowerChar c = 46 ↔ c = 46 := by
  unfold lowerChar
  split <;> omega

theorem mem_46_lowerStr {l : List Nat} : 46 ∈ lowerStr l ↔ 46 ∈ l := by
  simp only [lowerStr, List.mem_map]
  constructor
  · rintro ⟨c, hc, hl⟩
    exact (lowerChar_eq_46.mp hl) ▸ hc
  · intro hl
    exact ⟨46, hl, rfl⟩

/-- Claim C3, counterexample: a file name with no dot gets the whole
lowercased name as its extension, not the empty string, and a file
literally named csv passes the CSV-to-Parquet validation instead of
failing it. -/
theorem claim_c3_counterexample :
    extensionOf (codes ("datafile")) ≠ [] ∧
    extensionOf (codes ("datafile")) = codes ("datafile") ∧
    (dataset_converter envOk (some ⟨codes ("csv"), []⟩) csvToParquetLabel []).outcome =
      Except.ok outputParquetFile :=
  ⟨by decide, by decide, rfl⟩

/-- Claim C3 as amended: the extension is the last dot-separated chunk
of the lowercased file name: the substring after the last dot when the
name contains a dot, and the entire lowercased name (so not in general
the empty string) when it does not. -/
theorem claim_c3 (name : List Nat) :
    (46 ∉ name → extensionOf name = lowerStr name) ∧
    (46 ∈ name → ∃ pre, lowerStr name = pre ++ 46 :: extensionOf name ∧
      46 ∉ extensionOf name) := by
  constructor
  · intro h46
    unfold extensionOf
    rw [splitDot_no_dot (lowerStr name) (fun hm => h46 (mem_46_lowerStr.mp hm))]
    rfl
  · intro h46
    exact splitDot_last_spec (lowerStr name) (mem_46_lowerStr.mpr h46)

theorem claim_c3_witness :
    ∃ pre, lowerStr (codes ("A.Txt")) = pre ++ 46 :: extensionOf (codes ("A.Txt")) ∧
      46 ∉ extensionOf (codes ("A.Txt")) :=
  (claim_c3 (codes ("A.Txt"))).2 (by decide)

/-! ## Branch characterizations of the dispatch chain -/

theorem converter_cp (env : Env) (f : Option UploadedFile) (url : List Nat) :
    dataset_converter env f csvToParquetLabel url =
      (match f with
       | Option.none => ⟨.error (.invalidInput csvToParquetMsg), [], []⟩
       | some f =>
         if extensionOf f.name ≠ csvExt then ⟨.error (.invalidInput csvToParquetMsg), [], []⟩
         else
           match env.readCsv f.content with
           | .error m => ⟨.error (.parseError m), [], []⟩
           | .ok df => ⟨.ok outputParquetFile, [(outputParquetFile, .parquetOf df)], []⟩) := by
  unfold dataset_converter
  rw [if_pos rfl]

theorem converter_pc (env : Env) (f : Option UploadedFile) (url : List Nat) :
    dataset_converter env f parquetToCsvLabel url =
      (match f with
       | Option.none => ⟨.error (.invalidInput parquetToCsvMsg), [], []⟩
       | some f =>
         if extensionOf f.name ≠ parquetExt then ⟨.error (.invalidInput parquetToCsvMsg), [], []⟩
         else
           match env.readParquet f.content with
           | .error m => ⟨.error (.parseError m), [], []⟩
           | .ok df => ⟨.ok outputCsvFile, [(outputCsvFile, .csvOf df)], []⟩) := by
  unfold dataset_converter
  rw [if_neg (by decide), if_pos rfl]

theorem converter_cj (env : Env) (f : Option UploadedFile) (url : List Nat) :
    dataset_converter env f csvToJsonlLabel url =
      (match f with
       | Option.none => ⟨.error (.invalidInput csvToJsonlMsg), [], []⟩
       | some f =>
         if extensionOf f.name ≠ csvExt then ⟨.error (.invalidInput csvToJsonlMsg), [], []⟩
         else
           match env.readCsvLatin1 f.content with
           | .error m => ⟨.error (.parseError m), [], []⟩
           | .ok df =>
             match buildTotalData df.columns df.rows with
             | .error e => ⟨.error e, [], []⟩
             | .ok total =>
               let wr := writeJsonLines csvJsonlLineEnc total
               ⟨(match wr.1 with
                 | .ok _ => .ok metadataJsonlFile
                 | .error e => .error e),
                [(metadataJsonlFile, .text wr.2)], []⟩) := by
  unfold dataset_converter
  rw [if_neg (by decide), if_neg (by decide), if_pos rfl]

theorem converter_pj (env : Env) (f : Option UploadedFile) (url : List Nat) :
    dataset_converter env f parquetToJsonlLabel url =
      (match parquetSource env f url parquetToJsonlMsg with
       | (.error e, fs) => ⟨.error e, [], fs⟩
       | (.ok df, fs) =>
         let wr := writeJsonLines parquetJsonlLineEnc (dfRecords df)
         ⟨(match wr.1 with
           | .ok _ => .ok outputJsonlFile
           | .error e => .error e),
          [(outputJsonlFile, .text wr.2)], fs⟩) := by
  unfold dataset_converter
  rw [if_neg (by decide), if_neg (by decide), if_neg (by decide), if_pos rfl]

theorem converter_px (env : Env) (f : Option UploadedFile) (url : List Nat) :
    dataset_converter env f parquetToXlsLabel url =
      (match parquetSource env f url parquetToXlsMsg with
       | (.error e, fs) => ⟨.error e, [], fs⟩
       | (.ok df, fs) =>
         ⟨.ok outputXlsxFile,
          [(outputXlsxFile,
            .xlsxOf ((df.columns.map PyVal.str) :: df.rows.map (fun r => r.map sanitize_value)))],
          fs⟩) := by
  unfold dataset_converter
  rw [if_neg (by decide), if_neg (by decide), if_neg (by decide), if_neg (by decide),
    if_pos rfl]

/-! ## Claim C9 -/

/-- The output file name determined by the conversion-type label alone. -/
def outputNameOf (t : String) : Option String :=
  if t = csvToParquetLabel then some outputParquetFile
  else if t = parquetToCsvLabel then some outputCsvFile
  else if t = csvToJsonlLabel then some metadataJsonlFile
  else if t = parquetToJsonlLabel then some outputJsonlFile
  else if t = parquetToXlsLabel then some outputXlsxFile
  else Option.none

theorem dataset_converter_ok_name (env : Env) (f : Option UploadedFile) (t : String)
    (url : List Nat) (o : String)
    (h : (dataset_converter env f t url).outcome = Except.ok o) :
    outputNameOf t = some o := by
  unfold dataset_converter at h
  unfold outputNameOf
  repeat' split at h
  all_goals dsimp only at h
  all_goals try split at h
  all_goals simp_all

/-- Claim C9: two requests with the same conversion-type label that both
produce an output file produce the same output file name, whatever their
environments, supplied files (and file bytes) and URLs are; the name is
the value of the dispatch table outputNameOf, a function of the label
alone (the file extension is only consulted for validation). -/
theorem claim_c9 (env1 env2 : Env) (f1 f2 : Option UploadedFile) (url1 url2 : List Nat)
    (t : String) (o1 o2 : String)
    (h1 : (dataset_converter env1 f1 t url1).outcome = Except.ok o1)
    (h2 : (dataset_converter env2 f2 t url2).outcome = Except.ok o2) :
    o1 = o2 ∧ outputNameOf t = some o1 := by
  have e1 := dataset_converter_ok_name env1 f1 t url1 o1 h1
  have e2 := dataset_converter_ok_name env2 f2 t url2 o2 h2
  rw [e1] at e2
  exact ⟨(Option.some.injEq o1 o2).mp e2, e1⟩

theorem claim_c9_witness :
    outputParquetFile = outputParquetFile ∧
      outputNameOf csvToParquetLabel = some outputParquetFile :=
  claim_c9 envOk envOk (some fileACsv) (some ⟨codes ("b.csv"), [1, 2, 3]⟩) [] []
    csvToParquetLabel outputParquetFile outputParquetFile rfl rfl

/-! ## Claim C4 -/

/-- Claim C4: for the Parquet to JSONL and Parquet to XLS conversions, a
supplied file takes precedence (the result is the same as if no URL had
been supplied at all); with neither file nor URL the conversion fails
with an InvalidInput error, writing nothing and fetching nothing; and
when the URL is used and the HTTP status is an error status, the
conversion fails with a RemoteFetchError carrying that status, writes no
file, and performs exactly one fetch (no retry). -/
theorem claim_c4 (t : String)
    (ht : t = parquetToJsonlLabel ∨ t = parquetToXlsLabel) :
    (∀ env f url, dataset_converter env (some f) t url = dataset_converter env (some f) t []) ∧
    (∀ env, ∃ m, dataset_converter env Option.none t [] =
      ⟨.error (.invalidInput m), [], []⟩) ∧
    (∀ env url, url ≠ [] → httpError (env.http url).statusCode = true →
      dataset_converter env Option.none t url =
        ⟨.error (.remoteFetchError (env.http url).statusCode), [], [url]⟩) := by
  have hsrc : ∀ env url msg, url ≠ [] → httpError (env.http url).statusCode = true →
      parquetSource env Option.none url msg =
        (.error (.remoteFetchError (env.http url).statusCode), [url]) := by
    intro env url msg hne hstat
    unfold parquetSource
    rw [if_pos hne, if_pos hstat]
  rcases ht with rfl | rfl
  · refine ⟨?_, ?_, ?_⟩
    · intro env f url
      have hp : parquetSource env (some f) url parquetToJsonlMsg =
          parquetSource env (some f) [] parquetToJsonlMsg := rfl
      rw [converter_pj, converter_pj, hp]
    · intro env
      exact ⟨parquetToJsonlMsg, by rw [converter_pj]; rfl⟩
    · intro env url hne hstat
      rw [converter_pj, hsrc env url parquetToJsonlMsg hne hstat]
  · refine ⟨?_, ?_, ?_⟩
    · intro env f url
      have hp : parquetSource env (some f) url parquetToXlsMsg =
          parquetSource env (some f) [] parquetToXlsMsg := rfl
      rw [converter_px, converter_px, hp]
    · intro env
      exact ⟨parquetToXlsMsg, by rw [converter_px]; rfl⟩
    · intro env url hne hstat
      rw [converter_px, hsrc env url parquetToXlsMsg hne hstat]

theorem claim_c4_witness :
    dataset_converter envHttp404 Option.none parquetToJsonlLabel (codes ("http://x/a.parquet")) =
      ⟨.error (.remoteFetchError 404), [], [codes ("http://x/a.parquet")]⟩ :=
  (claim_c4 parquetToJsonlLabel (Or.inl rfl)).2.2 envHttp404 (codes ("http://x/a.parquet"))
    (by decide) (by decide)

/-! ## Claim C5 -/

theorem utf8_count_ascii (c : Nat) (hc : c < 128) :
    ∀ bs : List Nat, (utf8DecodeReplace bs).count c = bs.count c := by
  have hk : ∀ x : Nat, 128 ≤ x → ∀ l : List Nat,
      List.count c (x :: l) = List.count c l :=
    fun x hx l => List.count_cons_of_ne (by omega) l
  intro bs
  induction bs using utf8DecodeReplace.induct
  case case1 => simp [utf8DecodeReplace]
  case case2 b1 rest h1 ih =>
    rw [utf8DecodeReplace.eq_def]
    dsimp only
    rw [if_pos h1, List.count_cons, List.count_cons, ih]
  case case3 b1 rest h1 h2 ih =>
    rw [utf8DecodeReplace.eq_def]
    dsimp only
    rw [if_neg h1, if_pos h2, hk 65533 (by omega), hk b1 (by omega), ih]
  case case4 b1 h1 h2 h3 =>
    rw [utf8DecodeReplace.eq_def]
    dsimp only
    rw [if_neg h1, if_neg h2, if_pos h3, hk 65533 (by omega), hk b1 (by omega)]
  case case5 b1 h1 h2 h3 b2 rest h4 ih =>
    rw [utf8DecodeReplace.eq_def]
    dsimp only
    simp only [isCont, decide_eq_true_eq] at h4
    rw [if_neg h1, if_neg h2, if_pos h3, if_pos (by simp [isCont]; omega),
      hk ((b1 - 192) * 64 + (b2 - 128)) (by omega), hk b1 (by omega), hk b2 (by omega), ih]
  case case6 b1 h1 h2 h3 b2 rest h4 ih =>
    rw [utf8DecodeReplace.eq_def]
    dsimp only
    rw [if_neg h1, if_neg h2, if_pos h3, if_neg h4, hk 65533 (by omega), hk b1 (by omega), ih]
  case case7 b1 h1 h2 h3 h4 =>
    rw [utf8DecodeReplace.eq_def]
    dsimp only
    rw [if_neg h1, if_neg h2, if_neg h3, if_pos h4, hk 65533 (by omega), hk b1 (by omega)]
  case case8 b1 h1 h2 h3 h4 b2 h5 =>
    rw [utf8DecodeReplace.eq_def]
    dsimp only
    obtain ⟨h5a, h5b, h5c⟩ := h5
    simp only [isCont, decide_eq_true_eq] at h5a
    rw [if_neg h1, if_neg h2, if_neg h3, if_pos h4,
      if_pos (by simp only [isCont, decide_eq_true_eq]; exact ⟨h5a, h5b, h5c⟩),
      hk 65533 (by omega), hk b1 (by omega), hk b2 (by omega)]
  case case9 b1 h1 h2 h3 h4 b2 h5 b3 rest h6 ih =>
    rw [utf8DecodeReplace.eq_def]
    dsimp only
    obtain ⟨h5a, h5b, h5c⟩ := h5
    simp only [isCont, decide_eq_true_eq] at h5a h6
    rw [if_neg h1, if_neg h2, if_neg h3, if_pos h4,
      if_pos (by simp only [isCont, decide_eq_true_eq]; exact ⟨h5a, h5b, h5c⟩),
      if_pos (by simp only [isCont, decide_eq_true_eq]; exact h6),
      hk ((b1 - 224) * 4096 + (b2 - 128) * 64 + (b3 - 128)) (by omega),
      hk b1 (by omega), hk b2 (by omega), hk b3 (by omega), ih]
  case case10 b1 h1 h2 h3 h4 b2 h5 b3 rest h6 ih =>
    rw [utf8DecodeReplace.eq_def]
    dsimp only
    obtain ⟨h5a, h5b, h5c⟩ := h5
    simp only [isCont, decide_eq_true_eq] at h5a
    rw [if_neg h1, if_neg h2, if_neg h3, if_pos h4,
      if_pos (by simp only [isCont, decide_eq_true_eq]; exact ⟨h5a, h5b, h5c⟩),
      if_neg h6, hk 65533 (by omega), hk b1 (by omega), hk b2 (by omega), ih]
  case case11 b1 h1 h2 h3 h4 b2 rest h5 ih =>
    rw [utf8DecodeReplace.eq_def]
    dsimp only
    rw [if_neg h1, if_neg h2, if_neg h3, if_pos h4, if_neg h5,
      hk 65533 (by omega), hk b1 (by omega), ih]
  case case12 b1 h1 h2 h3 h4 h5 =>
    rw [utf8DecodeReplace.eq_def]
    dsimp only
    rw [if_neg h1, if_neg h2, if_neg h3, if_neg h4, if_pos h5,
      hk 65533 (by omega), hk b1 (by omega)]
  case case13 b1 h1 h2 h3 h4 h5 b2 h6 =>
    rw [utf8DecodeReplace.eq_def]
    dsimp only
    obtain ⟨h6a, h6b, h6c⟩ := h6
    simp only [isCont, decide_eq_true_eq] at h6a
    rw [if_neg h1, if_neg h2, if_neg h3, if_neg h4, if_pos h5,
      if_pos (by simp only [isCont, decide_eq_true_eq]; exact ⟨h6a, h6b, h6c⟩),
      hk 65533 (by omega), hk b1 (by omega), hk b2 (by omega)]
  case case14 b1 h1 h2 h3 h4 h5 b2 h6 b3 h7 =>
    rw [utf8DecodeReplace.eq_def]
    dsimp only
    obtain ⟨h6a, h6b, h6c⟩ := h6
    simp only [isCont, decide_eq_true_eq] at h6a h7
    rw [if_neg h1, if_neg h2, if_neg h3, if_neg h4, if_pos h5,
      if_pos (by simp only [isCont, decide_eq_true_eq]; exact ⟨h6a, h6b, h6c⟩),
      if_pos (by simp only [isCont, decide_eq_true_eq]; exact h7),
      hk 65533 (by omega), hk b1 (by omega), hk b2 (by omega), hk b3 (by omega)]
  case case15 b1 h1 h2 h3 h4 h5 b2 h6 b3 h7 b4 rest h8 ih =>
    rw [utf8DecodeReplace.eq_def]
    dsimp only
    obtain ⟨h6a, h6b, h6c⟩ := h6
    simp only [isCont, decide_eq_true_eq] at h6a h7 h8
    rw [if_neg h1, if_neg h2, if_neg h3, if_neg h4, if_pos h5,
      if_pos (by simp only [isCont, decide_eq_true_eq]; exact ⟨h6a, h6b, h6c⟩),
      if_pos (by simp only [isCont, decide_eq_true_eq]; exact h7),
      if_pos (by simp only [isCont, decide_eq_true_eq]; exact h8),
      hk ((b1 - 240) * 262144 + (b2 - 128) * 4096 + (b3 - 128) * 64 + (b4 - 128)) (by omega),
      hk b1 (by omega), hk b2 (by omega), hk b3 (by omega), hk b4 (by omega), ih]
  case case16 b1 h1 h2 h3 h4 h5 b2 h6 b3 h7 b4 rest h8 ih =>
    rw [utf8DecodeReplace.eq_def]
    dsimp only
    obtain ⟨h6a, h6b, h6c⟩ := h6
    simp only [isCont, decide_eq_true_eq] at h6a h7
    rw [if_neg h1, if_neg h2, if_neg h3, if_neg h4, if_pos h5,
      if_pos (by simp only [isCont, decide_eq_true_eq]; exact ⟨h6a, h6b, h6c⟩),
      if_pos (by simp only [isCont, decide_eq_true_eq]; exact h7),
      if_neg h8, hk 65533 (by omega), hk b1 (by omega), hk b2 (by omega), hk b3 (by omega), ih]
  case case17 b1 h1 h2 h3 h4 h5 b2 h6 b3 rest h7 ih =>
    rw [utf8DecodeReplace.eq_def]
    dsimp only
    obtain ⟨h6a, h6b, h6c⟩ := h6
    simp only [isCont, decide_eq_true_eq] at h6a
    rw [if_neg h1, if_neg h2, if_neg h3, if_neg h4, if_pos h5,
      if_pos (by simp only [isCont, decide_eq_true_eq]; exact ⟨h6a, h6b, h6c⟩),
      if_neg h7, hk 65533 (by omega), hk b1 (by omega), hk b2 (by omega), ih]
  case case18 b1 h1 h2 h3 h4 h5 b2 rest h6 ih =>
    rw [utf8DecodeReplace.eq_def]
    dsimp only
    rw [if_neg h1, if_neg h2, if_neg h3, if_neg h4, if_pos h5, if_neg h6,
      hk 65533 (by omega), hk b1 (by omega), ih]
  case case19 b1 rest h1 h2 h3 h4 h5 ih =>
    rw [utf8DecodeReplace.eq_def]
    dsimp only
    rw [if_neg h1, if_neg h2, if_neg h3, if_neg h4, if_neg h5,
      hk 65533 (by omega), hk b1 (by omega), ih]

theorem sanitize_value_str_cases (v : PyVal) (s : List Nat)
    (h : sanitize_value v = PyVal.str s) :
    ∃ u, s = stripCtrl u ∧
      (∀ t, v = PyVal.str t → u = t) ∧
      (∀ bs, v = PyVal.bytes bs → u = utf8DecodeReplace bs) := by
  cases v with
  | noneV => simp [sanitize_value] at h
  | bool b => simp [sanitize_value] at h
  | int n => simp [sanitize_value] at h
  | obj ty r => simp [sanitize_value] at h
  | str t =>
    simp only [sanitize_value, PyVal.str.injEq] at h
    refine ⟨t, h.symm, ?_, ?_⟩
    · intro t' ht'
      cases ht'
      rfl
    · intro bs' hb
      cases hb
  | bytes bs =>
    simp only [sanitize_value, PyVal.str.injEq] at h
    refine ⟨utf8DecodeReplace bs, h.symm, ?_, ?_⟩
    · intro t' ht'
      cases ht'
    · intro bs' hb
      cases hb
      rfl
  | list xs =>
    simp only [sanitize_value, PyVal.str.injEq] at h
    refine ⟨pyRepr (PyVal.list xs), h.symm, ?_, ?_⟩
    · intro t' ht'
      cases ht'
    · intro bs' hb
      cases hb
  | dict kvs =>
    simp only [sanitize_value, PyVal.str.injEq] at h
    refine ⟨pyRepr (PyVal.dict kvs), h.symm, ?_, ?_⟩
    · intro t' ht'
      cases ht'
    · intro bs' hb
      cases hb

/-- Claim C5: whenever sanitize_value returns a string, that string
contains no character in the stripped control ranges; and the newline
and tab characters present in a text-string or byte-string input are
preserved (their numbers of occurrences are unchanged). -/
theorem claim_c5 (v : PyVal) (s : List Nat) (h : sanitize_value v = PyVal.str s) :
    (∀ c ∈ s, isIllegalCtrl c = false) ∧
    (∀ t, v = PyVal.str t → s.count 10 = t.count 10 ∧ s.count 9 = t.count 9) ∧
    (∀ bs, v = PyVal.bytes bs → s.count 10 = bs.count 10 ∧ s.count 9 = bs.count 9) := by
  obtain ⟨u, rfl, hstr, hbytes⟩ := sanitize_value_str_cases v s h
  refine ⟨fun c hc => stripCtrl_not_illegal hc, ?_, ?_⟩
  · intro t ht
    rw [hstr t ht]
    exact ⟨count_stripCtrl t (by decide), count_stripCtrl t (by decide)⟩
  · intro bs hb
    rw [hbytes bs hb]
    constructor
    · rw [count_stripCtrl (utf8DecodeReplace bs) (by decide)]
      exact utf8_count_ascii 10 (by omega) bs
    · rw [count_stripCtrl (utf8DecodeReplace bs) (by decide)]
      exact utf8_count_ascii 9 (by omega) bs

theorem claim_c5_witness :
    (∀ c ∈ ([104, 10, 9] : List Nat), isIllegalCtrl c = false) ∧
    ([104, 10, 9] : List Nat).count 10 = ([104, 10, 0, 9] : List Nat).count 10 ∧
    ([104, 10, 9] : List Nat).count 9 = ([104, 10, 0, 9] : List Nat).count 9 :=
  ⟨(claim_c5 (PyVal.bytes [104, 10, 0, 9]) [104, 10, 9] rfl).1,
   (claim_c5 (PyVal.bytes [104, 10, 0, 9]) [104, 10, 9] rfl).2.2 [104, 10, 0, 9] rfl⟩

/-! ## Claim C8 -/


theorem dumps_dict_ok_parts {ea : Bool} {kvs : List (List Nat × PyVal)} {l : List Nat}
    (h : jsonDumps ea (.dict kvs) = .ok l) :
    ∃ parts, jsonDumpsDict ea kvs = .ok parts := by
  simp only [jsonDumps] at h
  cases hd : jsonDumpsDict ea kvs with
  | ok parts => exact ⟨parts, rfl⟩
  | error e => rw [hd] at h; cases h

theorem dumpsDict_ok_values {ea : Bool} : ∀ (kvs : List (List Nat × PyVal)) (parts : List Nat),
    jsonDumpsDict ea kvs = .ok parts → ∀ kv ∈ kvs, ∃ l, jsonDumps ea kv.2 = .ok l := by
  intro kvs
  induction kvs with
  | nil => intro parts h kv hkv; cases hkv
  | cons hd tl ih =>
    intro parts h kv hkv
    obtain ⟨k, v⟩ := hd
    cases tl with
    | nil =>
      simp only [jsonDumpsDict] at h
      cases hv : jsonDumps ea v with
      | ok dv =>
        rcases List.mem_singleton.mp hkv with rfl
        exact ⟨dv, hv⟩
      | error e => rw [hv] at h; cases h
    | cons kv2 tl2 =>
      simp only [jsonDumpsDict] at h
      cases hv : jsonDumps ea v with
      | ok dv =>
        cases hr : jsonDumpsDict ea (kv2 :: tl2) with
        | ok rest =>
          rcases List.mem_cons.mp hkv with rfl | hmem
          · exact ⟨dv, hv⟩
          · exact ih rest hr kv hmem
        | error e => rw [hv, hr] at h; cases h
      | error e =>
        rw [hv] at h
        cases hr : jsonDumpsDict ea (kv2 :: tl2) with
        | ok rest => rw [hr] at h; cases h
        | error e2 => rw [hr] at h; cases h

theorem dumpsDict_two_ok {ea : Bool} {k1 k2 : List Nat} {v1 v2 : PyVal} {l1 l2 : List Nat}
    (h1 : jsonDumps ea v1 = .ok l1) (h2 : jsonDumps ea v2 = .ok l2) :
    jsonDumpsDict ea [(k1, v1), (k2, v2)] =
      .ok (jsonStr ea k1 ++ codes (": ") ++ l1 ++ codes (", ") ++
        (jsonStr ea k2 ++ codes (": ") ++ l2)) := by
  simp only [jsonDumpsDict, h1, h2]

theorem pyDictSet_mem_values {d : List (List Nat × PyVal)} {k : List Nat} {v : PyVal}
    {kv : List Nat × PyVal} (h : kv ∈ pyDictSet d k v) :
    kv ∈ d ∨ (kv.1 = k ∧ kv.2 = v) := by
  unfold pyDictSet at h
  split at h
  · obtain ⟨p, hp, hpe⟩ := List.mem_map.mp h
    by_cases hpk : p.1 == k
    · rw [if_pos hpk] at hpe
      right
      rw [← hpe]
      exact ⟨by simpa using hpk, rfl⟩
    · rw [if_neg hpk] at hpe
      exact Or.inl (hpe ▸ hp)
  · rcases List.mem_append.mp h with hm | hm
    · exact Or.inl hm
    · right
      rcases List.mem_singleton.mp hm with rfl
      exact ⟨rfl, rfl⟩

theorem pyDictSet_mem_self (d : List (List Nat × PyVal)) (k : List Nat) (v : PyVal) :
    (k, v) ∈ pyDictSet d k v := by
  unfold pyDictSet
  split
  · rename_i hany
    obtain ⟨p, hp, hpk⟩ := List.any_eq_true.mp hany
    refine List.mem_map.mpr ⟨p, hp, ?_⟩
    rw [if_pos hpk]
    have : p.1 = k := by simpa using hpk
    rw [this]
  · exact List.mem_append.mpr (Or.inr (List.mem_singleton.mpr rfl))

theorem pyDictSet_mem_keep {d : List (List Nat × PyVal)} {k0 k : List Nat} {w v : PyVal}
    (hm : (k0, w) ∈ d) (hkv : k0 = k → w = v) : (k0, w) ∈ pyDictSet d k v := by
  unfold pyDictSet
  split
  · refine List.mem_map.mpr ⟨(k0, w), hm, ?_⟩
    by_cases hk : k0 = k
    · have hb : ((k0, w).1 == k) = true := by simpa using hk
      rw [if_pos hb]
      rw [hk, hkv hk]
    · have hb : ¬ ((k0, w).1 == k) = true := by simpa using hk
      rw [if_neg hb]
  · exact List.mem_append.mpr (Or.inl hm)

theorem buildRowState_invariant (cols : List (List Nat)) (row : List PyVal) :
    (∀ kv ∈ (buildRowState cols row).2, kv.2 = rowLookup cols row kv.1) ∧
    ((buildRowState cols row).1 = PyVal.noneV ∨
      ∃ k, (k, (buildRowState cols row).1) ∈ (buildRowState cols row).2) := by
  unfold buildRowState
  suffices hgen : ∀ (l : List (List Nat)) (acc : PyVal × List (List Nat × PyVal)),
      (∀ kv ∈ acc.2, kv.2 = rowLookup cols row kv.1) →
      (acc.1 = PyVal.noneV ∨ ∃ k, (k, acc.1) ∈ acc.2) →
      (∀ kv ∈ (l.foldl (fun acc col =>
          let v := rowLookup cols row col
          ((if col = fileNameKey then v else acc.1), pyDictSet acc.2 col v))
          acc).2,
        kv.2 = rowLookup cols row kv.1) ∧
      ((l.foldl (fun acc col =>
          let v := rowLookup cols row col
          ((if col = fileNameKey then v else acc.1), pyDictSet acc.2 col v))
          acc).1 = PyVal.noneV ∨
        ∃ k, (k, (l.foldl (fun acc col =>
          let v := rowLookup cols row col
          ((if col = fileNameKey then v else acc.1), pyDictSet acc.2 col v))
          acc).1) ∈ (l.foldl (fun acc col =>
          let v := rowLookup cols row col
          ((if col = fileNameKey then v else acc.1), pyDictSet acc.2 col v))
          acc).2) by
    exact hgen cols (PyVal.noneV, []) (fun kv hkv => absurd hkv (List.not_mem_nil kv))
      (Or.inl rfl)
  intro l
  induction l with
  | nil => intro acc hq hp; exact ⟨hq, hp⟩
  | cons col l ih =>
    intro acc hq hp
    rw [List.foldl_cons]
    apply ih
    · intro kv hkv
      rcases pyDictSet_mem_values hkv with hold | ⟨hk, hv⟩
      · exact hq kv hold
      · rw [hv, hk]
    · dsimp only
      by_cases hcol : col = fileNameKey
      · rw [if_pos hcol]
        exact Or.inr ⟨col, pyDictSet_mem_self _ _ _⟩
      · rw [if_neg hcol]
        rcases hp with hnone | ⟨k0, hmem⟩
        · exact Or.inl hnone
        · refine Or.inr ⟨k0, pyDictSet_mem_keep hmem ?_⟩
          intro hk0
          have hv0 := hq (k0, acc.1) hmem
          dsimp at hv0
          rw [hv0, hk0]

theorem buildRowData_ok_line {cols : List (List Nat)} {row : List PyVal}
    {rd : PyVal × List Nat} (h : buildRowData cols row = .ok rd) :
    ∃ l, csvJsonlLineEnc rd = .ok l := by
  unfold buildRowData at h
  cases hgt : jsonDumps true (.dict (buildRowState cols row).2) with
  | error e => rw [hgt] at h; cases h
  | ok gt =>
    rw [hgt] at h
    injection h with h2
    obtain ⟨parts, hparts⟩ := dumps_dict_ok_parts hgt
    have hfn : ∃ lf, jsonDumps true rd.1 = .ok lf := by
      rw [← h2]
      dsimp only
      rcases (buildRowState_invariant cols row).2 with hnone | ⟨k, hmem⟩
      · rw [hnone]
        exact ⟨_, rfl⟩
      · exact dumpsDict_ok_values _ parts hparts (k, (buildRowState cols row).1) hmem
    obtain ⟨lf, hlf⟩ := hfn
    have hstr : jsonDumps true (PyVal.str rd.2) = .ok (jsonStr true rd.2) := rfl
    have hdd := @dumpsDict_two_ok true fileNameKey groundTruthKey rd.1 (PyVal.str rd.2)
      lf (jsonStr true rd.2) hlf hstr
    cases hline : jsonDumps true (.dict [(fileNameKey, rd.1), (groundTruthKey, PyVal.str rd.2)]) with
    | ok l => exact ⟨l, by unfold csvJsonlLineEnc; rw [hline]⟩
    | error e =>
      simp only [jsonDumps, hdd] at hline
      cases hline

theorem writeJsonLines_ok {α : Type} (enc : α → Except ConvError (List Nat)) :
    ∀ rows : List α, (∀ r ∈ rows, ∃ l, enc r = .ok l) →
    (writeJsonLines enc rows).1 = .ok () := by
  intro rows
  induction rows with
  | nil => intro h; rfl
  | cons r rest ih =>
    intro h
    obtain ⟨l, hl⟩ := h r (List.mem_cons_self r rest)
    unfold writeJsonLines
    rw [hl]
    exact ih (fun r' hr' => h r' (List.mem_cons_of_mem r hr'))

theorem buildTotalData_mem {cols : List (List Nat)} :
    ∀ {rows : List (List PyVal)} {total : List (PyVal × List Nat)},
    buildTotalData cols rows = .ok total →
    ∀ rd ∈ total, ∃ row, buildRowData cols row = .ok rd := by
  intro rows
  induction rows with
  | nil =>
    intro total h rd hrd
    injection h with h2
    rw [← h2] at hrd
    cases hrd
  | cons row rest ih =>
    intro total h rd hrd
    unfold buildTotalData at h
    cases h1 : buildRowData cols row with
    | error e =>
      cases h2 : buildTotalData cols rest with
      | ok rds => rw [h1, h2] at h; cases h
      | error e2 => rw [h1, h2] at h; cases h
    | ok rd1 =>
      cases h2 : buildTotalData cols rest with
      | error e => rw [h1, h2] at h; cases h
      | ok rds =>
        rw [h1, h2] at h
        injection h with h3
        rw [← h3] at hrd
        rcases List.mem_cons.mp hrd with rfl | hmem
        · exact ⟨row, h1⟩
        · exact ih h2 rd hmem

theorem csv_write_ok {cols : List (List Nat)} {rows : List (List PyVal)}
    {total : List (PyVal × List Nat)} (h : buildTotalData cols rows = .ok total) :
    (writeJsonLines csvJsonlLineEnc total).1 = .ok () :=
  writeJsonLines_ok _ total (fun rd hrd => by
    obtain ⟨row, hrow⟩ := buildTotalData_mem h rd hrd
    exact buildRowData_ok_line hrow)

theorem writeJsonLines_error {α : Type} (enc : α → Except ConvError (List Nat)) :
    ∀ (rows : List α) {e : ConvError}, (writeJsonLines enc rows).1 = .error e →
    ∃ r, enc r = .error e := by
  intro rows
  induction rows with
  | nil => intro e h; cases h
  | cons r rest ih =>
    intro e h
    unfold writeJsonLines at h
    cases hr : enc r with
    | error e2 =>
      rw [hr] at h
      dsimp only at h
      injection h with he
      exact ⟨r, he ▸ hr⟩
    | ok l =>
      rw [hr] at h
      dsimp only at h
      exact ih h

theorem parquetJsonlLineEnc_error {rec : List (List Nat × PyVal)} {e : ConvError}
    (h : parquetJsonlLineEnc rec = .error e) : ∃ m, e = ConvError.serializeError m := by
  unfold parquetJsonlLineEnc at h
  cases hd : jsonDumps false (recursive_sanitize (.dict rec)) with
  | ok l => rw [hd] at h; cases h
  | error m =>
    rw [hd] at h
    injection h with he
    exact ⟨m, he.symm⟩

/-- A table whose second row holds a pandas Timestamp, a value that
recursive_sanitize leaves in place (it is neither bytes, dict nor list)
and that json.dumps rejects with TypeError. -/
def dfObj : DataFrame :=
  ⟨[codes ("a")],
   [[PyVal.str [104]], [PyVal.obj ("Timestamp") (codes ("Timestamp 2020-01-01"))]]⟩

/-- An environment whose readers succeed with the Timestamp-carrying
table. -/
def envObj : Env :=
  ⟨fun _ => .ok dfObj, fun _ => .ok dfObj, fun _ => .ok dfObj, fun _ => ⟨200, []⟩⟩

/-- A sample uploaded file named b.parquet. -/
def fileBParquet : UploadedFile := ⟨codes ("b.parquet"), [1]⟩

/-- Claim C8, counterexample: a Parquet to JSONL request over a table
with a datetime column fails with the json.dumps TypeError only after
output.jsonl has been created, leaving the already-written first line
in the file: the output file of the failing request is created and
modified, so the failing request does not leave the file system
untouched. -/
theorem claim_c8_counterexample :
    (dataset_converter envObj (some fileBParquet) parquetToJsonlLabel []).outcome =
      Except.error (.serializeError ("Object of type Timestamp is not JSON serializable")) ∧
    (dataset_converter envObj (some fileBParquet) parquetToJsonlLabel []).files =
      [(outputJsonlFile,
        FileContent.text [123, 34, 97, 34, 58, 32, 34, 104, 34, 125, 10])] ∧
    ([(outputJsonlFile,
        FileContent.text [123, 34, 97, 34, 58, 32, 34, 104, 34, 125, 10])] :
      List (String × FileContent)) ≠ [] :=
  ⟨rfl, rfl, List.cons_ne_nil _ _⟩

/-- Claim C8 as amended: a failing request writes nothing — its list of
created files is empty — except that a serialization failure while
writing JSONL lines can leave the output file created with the lines
already written.  That exception arises only in the Parquet to JSONL
branch (the file written is output.jsonl) and only from a
serialization error: the CSV to JSONL branch is safe because every
json.dumps call it performs after opening the file already ran
successfully while building total_data, before the file was opened. -/
theorem claim_c8 (env : Env) (f : Option UploadedFile) (t : String) (url : List Nat)
    (e : ConvError) :
    (dataset_converter env f t url).outcome = .error e →
    ((dataset_converter env f t url).files = [] ∨
      ((∃ m, e = ConvError.serializeError m) ∧
        ∃ s, (dataset_converter env f t url).files =
          [(outputJsonlFile, FileContent.text s)])) := by
  unfold dataset_converter
  split
  · -- CSV to Parquet
    split
    · intro _; exact Or.inl rfl
    · split
      · intro _; exact Or.inl rfl
      · split
        · intro _; exact Or.inl rfl
        · intro h; exact absurd h (by simp)
  · split
    · -- Parquet to CSV
      split
      · intro _; exact Or.inl rfl
      · split
        · intro _; exact Or.inl rfl
        · split
          · intro _; exact Or.inl rfl
          · intro h; exact absurd h (by simp)
    · split
      · -- CSV to JSONL
        split
        · intro _; exact Or.inl rfl
        · split
          · intro _; exact Or.inl rfl
          · split
            · intro _; exact Or.inl rfl
            · split
              · intro _; exact Or.inl rfl
              · rename_i total htotal
                intro h
                exfalso
                dsimp only at h
                rw [csv_write_ok htotal] at h
                dsimp only at h
                cases h
      · split
        · -- Parquet to JSONL
          split
          · intro _; exact Or.inl rfl
          · rename_i df fs hsrc
            intro h
            dsimp only at h
            cases hw : (writeJsonLines parquetJsonlLineEnc (dfRecords df)).1 with
            | ok u =>
              rw [hw] at h
              dsimp only at h
              cases h
            | error e2 =>
              rw [hw] at h
              dsimp only at h
              injection h with he
              refine Or.inr ⟨?_, ?_⟩
              · obtain ⟨rec, hrec⟩ := writeJsonLines_error parquetJsonlLineEnc
                  (dfRecords df) hw
                obtain ⟨m, hm⟩ := parquetJsonlLineEnc_error hrec
                exact ⟨m, by rw [← he, hm]⟩
              · exact ⟨(writeJsonLines parquetJsonlLineEnc (dfRecords df)).2, rfl⟩
        · split
          · -- Parquet to XLS
            split
            · intro _; exact Or.inl rfl
            · intro h; exact absurd h (by simp)
          · intro _; exact Or.inl rfl

theorem claim_c8_witness :
    (dataset_converter envParseErr (some fileACsv) csvToParquetLabel []).files = [] ∨
      ((∃ m, ConvError.parseError ("boom") = ConvError.serializeError m) ∧
        ∃ s, (dataset_converter envParseErr (some fileACsv) csvToParquetLabel []).files =
          [(outputJsonlFile, FileContent.text s)]) :=
  claim_c8 envParseErr (some fileACsv) csvToParquetLabel [] (.parseError ("boom")) rfl

/-! ## Claims C1 and C10 -/

/-- Python str.split on the newline character, chunk structure. -/
def splitNl : List Nat → List (List Nat)
  | [] => [[]]
  | c :: rest =>
    match splitNl rest with
    | [] => [[]]
    | s :: ss => if c = 10 then [] :: s :: ss else (c :: s) :: ss

/-- The newline-terminated lines of a text file: the chunks between the
newlines, without the trailing chunk after the last newline. -/
def textLines (s : List Nat) : List (List Nat) := (splitNl s).dropLast

/-- Concatenation of lines, each terminated by a newline. -/
def joinNl (lines : List (List Nat)) : List Nat :=
  lines.foldr (fun l acc => l ++ 10 :: acc) []

theorem splitNl_ne_nil (l : List Nat) : splitNl l ≠ [] := by
  cases l with
  | nil => simp [splitNl]
  | cons c rest =>
    unfold splitNl
    cases h : splitNl rest with
    | nil => simp
    | cons s ss =>
      dsimp only
      split <;> exact List.cons_ne_nil _ _

theorem splitNl_cons_10 {rest : List Nat} {s : List Nat} {ss : List (List Nat)}
    (h : splitNl rest = s :: ss) : splitNl (10 :: rest) = [] :: s :: ss := by
  unfold splitNl
  rw [h]
  simp

theorem splitNl_cons_ne {c : Nat} {rest : List Nat} {s : List Nat} {ss : List (List Nat)}
    (hc : c ≠ 10) (h : splitNl rest = s :: ss) : splitNl (c :: rest) = (c :: s) :: ss := by
  unfold splitNl
  rw [h]
  simp [hc]

theorem splitNl_append {l rest : List Nat} (h : 10 ∉ l) :
    splitNl (l ++ 10 :: rest) = l :: splitNl rest := by
  induction l with
  | nil =>
    obtain ⟨s, ss, hsplit⟩ := List.exists_cons_of_ne_nil (splitNl_ne_nil rest)
    show splitNl (10 :: rest) = [] :: splitNl rest
    rw [splitNl_cons_10 hsplit, hsplit]
  | cons c l ih =>
    have hc : c ≠ 10 := fun hc => h (hc ▸ List.mem_cons_self c l)
    have hl : 10 ∉ l := fun hl => h (List.mem_cons_of_mem c hl)
    exact splitNl_cons_ne hc (ih hl)

theorem textLines_join : ∀ lines : List (List Nat), (∀ l ∈ lines, 10 ∉ l) →
    textLines (joinNl lines) = lines := by
  intro lines
  induction lines with
  | nil => intro _; rfl
  | cons l ls ih =>
    intro h
    have hl : 10 ∉ l := h l (List.mem_cons_self l ls)
    have hls := ih (fun l' hl' => h l' (List.mem_cons_of_mem l hl'))
    show textLines (l ++ 10 :: joinNl ls) = l :: ls
    unfold textLines
    rw [splitNl_append hl]
    rw [List.dropLast_cons_of_ne_nil (splitNl_ne_nil (joinNl ls))]
    unfold textLines at hls
    rw [hls]

theorem writeJsonLines_content {α : Type} (enc : α → Except ConvError (List Nat)) :
    ∀ rows : List α, (∀ r ∈ rows, ∃ l, enc r = .ok l) →
    ∃ ls, List.Forall₂ (fun r l => enc r = .ok l) rows ls ∧
      writeJsonLines enc rows = (.ok (), joinNl ls) := by
  intro rows
  induction rows with
  | nil => intro _; exact ⟨[], .nil, rfl⟩
  | cons r rest ih =>
    intro h
    obtain ⟨l, hl⟩ := h r (List.mem_cons_self r rest)
    obtain ⟨ls, hfa, hwr⟩ := ih (fun r' hr' => h r' (List.mem_cons_of_mem r hr'))
    refine ⟨l :: ls, .cons hl hfa, ?_⟩
    unfold writeJsonLines
    rw [hl, hwr]
    rfl

theorem forall2_comp {α β γ : Type} {R : α → β → Prop} {S : β → γ → Prop}
    {as : List α} {bs : List β} {cs : List γ}
    (h1 : List.Forall₂ R as bs) (h2 : List.Forall₂ S bs cs) :
    List.Forall₂ (fun a c => ∃ b, R a b ∧ S b c) as cs := by
  induction h1 generalizing cs with
  | nil => cases h2; exact .nil
  | cons hr hrest ih =>
    cases h2 with
    | cons hs hsrest => exact .cons ⟨_, hr, hs⟩ (ih hsrest)

theorem buildTotalData_forall2 {cols : List (List Nat)} :
    ∀ {rows : List (List PyVal)} {total : List (PyVal × List Nat)},
    buildTotalData cols rows = .ok total →
    List.Forall₂ (fun row rd => buildRowData cols row = .ok rd) rows total := by
  intro rows
  induction rows with
  | nil =>
    intro total h
    injection h with h2
    rw [← h2]
    exact .nil
  | cons row rest ih =>
    intro total h
    unfold buildTotalData at h
    cases h1 : buildRowData cols row with
    | error e =>
      cases h2 : buildTotalData cols rest with
      | ok rds => rw [h1, h2] at h; cases h
      | error e2 => rw [h1, h2] at h; cases h
    | ok rd1 =>
      cases h2 : buildTotalData cols rest with
      | error e => rw [h1, h2] at h; cases h
      | ok rds =>
        rw [h1, h2] at h
        injection h with h3
        rw [← h3]
        exact .cons h1 (ih h2)

theorem natRepr_digits {n : Nat} : ∀ c ∈ natRepr n, 47 < c ∧ c < 58 := by
  induction n using natRepr.induct with
  | case1 n h =>
    intro c hc
    rw [natRepr, dif_pos h] at hc
    rcases List.mem_singleton.mp hc with rfl
    omega
  | case2 n h ih =>
    intro c hc
    rw [natRepr, dif_neg h] at hc
    rcases List.mem_append.mp hc with hm | hm
    · exact ih c hm
    · rcases List.mem_singleton.mp hm with rfl
      have : n % 10 < 10 := Nat.mod_lt n (by omega)
      omega

theorem intRepr_digits {i : Int} : ∀ c ∈ intRepr i, c = 45 ∨ (47 < c ∧ c < 58) := by
  cases i with
  | ofNat n => exact fun c hc => Or.inr (natRepr_digits c hc)
  | negSucc n =>
    intro c hc
    rcases List.mem_cons.mp hc with rfl | hm
    · exact Or.inl rfl
    · exact Or.inr (natRepr_digits c hm)

theorem hexDigit_bounds {m : Nat} (h : m < 16) : 47 < hexDigit m ∧ hexDigit m < 103 := by
  unfold hexDigit
  split <;> omega

theorem hex4_digits {x : Nat} : ∀ c ∈ hex4 x, 47 < c ∧ c < 103 := by
  intro c hc
  unfold hex4 at hc
  have h1 := hexDigit_bounds (Nat.mod_lt (x / 4096) (by omega))
  have h2 := hexDigit_bounds (Nat.mod_lt (x / 256) (by omega))
  have h3 := hexDigit_bounds (Nat.mod_lt (x / 16) (by omega))
  have h4 := hexDigit_bounds (Nat.mod_lt x (by omega))
  simp only [List.mem_cons, List.not_mem_nil, or_false] at hc
  rcases hc with rfl | rfl | rfl | rfl
  · exact h1
  · exact h2
  · exact h3
  · exact h4

theorem comma_space_sane : ∀ c ∈ codes (", "), 31 < c ∧ c < 128 := by decide

theorem colon_space_sane : ∀ c ∈ codes (": "), 31 < c ∧ c < 128 := by decide

set_option maxHeartbeats 1000000 in
theorem jsonEscChar_true_sane {c : Nat} : ∀ d ∈ jsonEscChar true c, 31 < d ∧ d < 128 := by
  intro d hd
  unfold jsonEscChar at hd
  split_ifs at hd with h1 h2 h3 h4 h5 h6 h7 h8 h9 h10
  · simp only [List.mem_cons, List.not_mem_nil, or_false] at hd
    rcases hd with rfl | rfl <;> omega
  · simp only [List.mem_cons, List.not_mem_nil, or_false] at hd
    rcases hd with rfl | rfl <;> omega
  · simp only [List.mem_cons, List.not_mem_nil, or_false] at hd
    rcases hd with rfl | rfl <;> omega
  · simp only [List.mem_cons, List.not_mem_nil, or_false] at hd
    rcases hd with rfl | rfl <;> omega
  · simp only [List.mem_cons, List.not_mem_nil, or_false] at hd
    rcases hd with rfl | rfl <;> omega
  · simp only [List.mem_cons, List.not_mem_nil, or_false] at hd
    rcases hd with rfl | rfl <;> omega
  · simp only [List.mem_cons, List.not_mem_nil, or_false] at hd
    rcases hd with rfl | rfl <;> omega
  · simp only [List.mem_cons] at hd
    rcases hd with rfl | rfl | hd
    · omega
    · omega
    · have := hex4_digits d hd
      omega
  · simp only [List.mem_cons] at hd
    rcases hd with rfl | rfl | hd
    · omega
    · omega
    · have := hex4_digits d hd
      omega
  · simp only [List.mem_append, List.mem_cons] at hd
    rcases hd with (rfl | rfl | hd) | (rfl | rfl | hd)
    · omega
    · omega
    · have := hex4_digits d hd
      omega
    · omega
    · omega
    · have := hex4_digits d hd
      omega
  · rcases List.mem_singleton.mp hd with rfl
    simp only [true_and] at h9
    omega

theorem jsonStr_true_sane {s : List Nat} : ∀ c ∈ jsonStr true s, 31 < c ∧ c < 128 := by
  intro c hc
  unfold jsonStr at hc
  rcases List.mem_cons.mp hc with rfl | hc
  · omega
  rcases List.mem_append.mp hc with hc | hc
  · obtain ⟨d, _, hd⟩ := List.mem_flatMap.mp hc
    exact jsonEscChar_true_sane c hd
  · rcases List.mem_singleton.mp hc with rfl
    omega

mutual

theorem dumps_true_sane (v : PyVal) (l : List Nat) (h : jsonDumps true v = .ok l) :
    ∀ c ∈ l, 31 < c ∧ c < 128 := by
  cases v with
  | obj ty r => cases h
  | noneV =>
    injection h with h2
    rw [← h2]
    decide
  | bool b =>
    cases b <;> (injection h with h2; rw [← h2]; decide)
  | int n =>
    injection h with h2
    rw [← h2]
    intro c hc
    rcases intRepr_digits c hc with rfl | hd <;> omega
  | str s =>
    injection h with h2
    rw [← h2]
    exact jsonStr_true_sane
  | bytes bs => cases h
  | list xs =>
    simp only [jsonDumps] at h
    cases hl : jsonDumpsList true xs with
    | error e => rw [hl] at h; cases h
    | ok parts =>
      rw [hl] at h
      injection h with h2
      rw [← h2]
      intro c hc
      rcases List.mem_cons.mp hc with rfl | hc
      · omega
      rcases List.mem_append.mp hc with hc | hc
      · exact dumpsList_true_sane xs parts hl c hc
      · rcases List.mem_singleton.mp hc with rfl
        omega
  | dict kvs =>
    simp only [jsonDumps] at h
    cases hl : jsonDumpsDict true kvs with
    | error e => rw [hl] at h; cases h
    | ok parts =>
      rw [hl] at h
      injection h with h2
      rw [← h2]
      intro c hc
      rcases List.mem_cons.mp hc with rfl | hc
      · omega
      rcases List.mem_append.mp hc with hc | hc
      · exact dumpsDict_true_sane kvs parts hl c hc
      · rcases List.mem_singleton.mp hc with rfl
        omega

theorem dumpsList_true_sane (xs : List PyVal) (l : List Nat)
    (h : jsonDumpsList true xs = .ok l) : ∀ c ∈ l, 31 < c ∧ c < 128 := by
  match xs with
  | [] =>
    injection h with h2
    rw [← h2]
    intro c hc
    cases hc
  | [x] => exact dumps_true_sane x l h
  | x :: y :: ys =>
    simp only [jsonDumpsList] at h
    cases hx : jsonDumps true x with
    | error e =>
      rw [hx] at h
      cases hr : jsonDumpsList true (y :: ys) with
      | ok rest => rw [hr] at h; cases h
      | error e2 => rw [hr] at h; cases h
    | ok dx =>
      cases hr : jsonDumpsList true (y :: ys) with
      | error e2 => rw [hx, hr] at h; cases h
      | ok rest =>
        rw [hx, hr] at h
        injection h with h2
        rw [← h2]
        intro c hc
        rcases List.mem_append.mp hc with hc | hc
        · rcases List.mem_append.mp hc with hc | hc
          · exact dumps_true_sane x dx hx c hc
          · exact comma_space_sane c hc
        · exact dumpsList_true_sane (y :: ys) rest hr c hc

theorem dumpsDict_true_sane (kvs : List (List Nat × PyVal)) (l : List Nat)
    (h : jsonDumpsDict true kvs = .ok l) : ∀ c ∈ l, 31 < c ∧ c < 128 := by
  match kvs with
  | [] =>
    injection h with h2
    rw [← h2]
    intro c hc
    cases hc
  | [(k, v)] =>
    simp only [jsonDumpsDict] at h
    cases hv : jsonDumps true v with
    | error e => rw [hv] at h; cases h
    | ok dv =>
      rw [hv] at h
      injection h with h2
      rw [← h2]
      intro c hc
      rcases List.mem_append.mp hc with hc | hc
      · rcases List.mem_append.mp hc with hc | hc
        · exact jsonStr_true_sane c hc
        · exact colon_space_sane c hc
      · exact dumps_true_sane v dv hv c hc
  | (k, v) :: kv :: kvs' =>
    simp only [jsonDumpsDict] at h
    cases hv : jsonDumps true v with
    | error e =>
      rw [hv] at h
      cases hr : jsonDumpsDict true (kv :: kvs') with
      | ok rest => rw [hr] at h; cases h
      | error e2 => rw [hr] at h; cases h
    | ok dv =>
      cases hr : jsonDumpsDict true (kv :: kvs') with
      | error e2 => rw [hv, hr] at h; cases h
      | ok rest =>
        rw [hv, hr] at h
        injection h with h2
        rw [← h2]
        intro c hc
        rcases List.mem_append.mp hc with hc | hc
        · rcases List.mem_append.mp hc with hc | hc
          · rcases List.mem_append.mp hc with hc | hc
            · rcases List.mem_append.mp hc with hc | hc
              · exact jsonStr_true_sane c hc
              · exact colon_space_sane c hc
            · exact dumps_true_sane v dv hv c hc
          · exact comma_space_sane c hc
        · exact dumpsDict_true_sane (kv :: kvs') rest hr c hc

end

theorem buildRowState_fst (cols : List (List Nat)) (row : List PyVal) :
    (buildRowState cols row).1 =
      (if fileNameKey ∈ cols then rowLookup cols row fileNameKey else PyVal.noneV) := by
  unfold buildRowState
  suffices hgen : ∀ (l : List (List Nat)) (acc : PyVal × List (List Nat × PyVal)),
      (l.foldl (fun acc col =>
        let v := rowLookup cols row col
        ((if col = fileNameKey then v else acc.1), pyDictSet acc.2 col v)) acc).1 =
      (if fileNameKey ∈ l then rowLookup cols row fileNameKey else acc.1) by
    exact hgen cols (PyVal.noneV, [])
  intro l
  induction l with
  | nil => intro acc; simp
  | cons col l ih =>
    intro acc
    rw [List.foldl_cons, ih]
    dsimp only
    by_cases hmem : fileNameKey ∈ l
    · rw [if_pos hmem, if_pos (List.mem_cons_of_mem col hmem)]
    · rw [if_neg hmem]
      by_cases hcol : col = fileNameKey
      · rw [if_pos hcol, if_pos (hcol ▸ List.mem_cons_self col l), hcol]
      · rw [if_neg hcol, if_neg ?hnotmem]
        case hnotmem =>
          intro hin
          rcases List.mem_cons.mp hin with he | he
          · exact hcol he.symm
          · exact hmem he

theorem pyDictSet_append {d : List (List Nat × PyVal)} {k : List Nat} {v : PyVal}
    (h : d.any (fun p => p.1 == k) = false) : pyDictSet d k v = d ++ [(k, v)] := by
  unfold pyDictSet
  rw [if_neg ?hcond]
  case hcond =>
    rw [h]
    exact Bool.false_ne_true

theorem buildRowState_data (cols : List (List Nat)) (row : List PyVal) (hnd : cols.Nodup) :
    (buildRowState cols row).2 = cols.map (fun c => (c, rowLookup cols row c)) := by
  unfold buildRowState
  suffices hgen : ∀ (l : List (List Nat)) (acc : PyVal × List (List Nat × PyVal)),
      l.Nodup → (∀ c ∈ l, acc.2.any (fun p => p.1 == c) = false) →
      (l.foldl (fun acc col =>
        let v := rowLookup cols row col
        ((if col = fileNameKey then v else acc.1), pyDictSet acc.2 col v)) acc).2 =
      acc.2 ++ l.map (fun c => (c, rowLookup cols row c)) by
    rw [hgen cols (PyVal.noneV, []) hnd (fun c _ => rfl)]
    rfl
  intro l
  induction l with
  | nil => intro acc _ _; simp
  | cons col l ih =>
    intro acc hnd hkeys
    have hcolnot : col ∉ l := (List.nodup_cons.mp hnd).1
    have hset := @pyDictSet_append acc.2 col (rowLookup cols row col)
      (hkeys col (List.mem_cons_self col l))
    rw [List.foldl_cons]
    dsimp only
    rw [ih _ ((List.nodup_cons.mp hnd).2) ?keys]
    · rw [hset, List.append_assoc]
      rfl
    case keys =>
      intro c hc
      rw [hset, List.any_append]
      have h1 : acc.2.any (fun p => p.1 == c) = false :=
        hkeys c (List.mem_cons_of_mem col hc)
      have h2 : (col == c) = false := by
        refine beq_eq_false_iff_ne.mpr fun he => ?_
        exact hcolnot (he ▸ hc)
      simp [h1, h2]

theorem map_lookup_eq_zip : ∀ (cols : List (List Nat)) (row : List PyVal), cols.Nodup →
    cols.length = row.length →
    cols.map (fun c => (c, rowLookup cols row c)) = cols.zip row := by
  intro cols
  induction cols with
  | nil => intro row _ _; rfl
  | cons c0 cols ih =>
    intro row hnd hlen
    cases row with
    | nil => cases hlen
    | cons r0 row =>
      have hc0 : rowLookup (c0 :: cols) (r0 :: row) c0 = r0 := by
        unfold rowLookup
        rw [List.zip_cons_cons]
        simp [List.lookup]
      have htail : ∀ c ∈ cols,
          rowLookup (c0 :: cols) (r0 :: row) c = rowLookup cols row c := by
        intro c hc
        have hne : (c == c0) = false := by
          refine beq_eq_false_iff_ne.mpr fun he => ?_
          exact (List.nodup_cons.mp hnd).1 (he ▸ hc)
        unfold rowLookup
        rw [List.zip_cons_cons]
        simp [List.lookup, hne]
      rw [List.zip_cons_cons, List.map_cons, hc0]
      have hmap : cols.map (fun c => (c, rowLookup (c0 :: cols) (r0 :: row) c)) =
          cols.map (fun c => (c, rowLookup cols row c)) :=
        List.map_congr_left (fun c hc => by rw [htail c hc])
      rw [hmap, ih row (List.nodup_cons.mp hnd).2 (by simpa using hlen)]

theorem csvJsonlLineEnc_ok_dumps {rd : PyVal × List Nat} {l : List Nat}
    (h : csvJsonlLineEnc rd = .ok l) :
    jsonDumps true (.dict [(fileNameKey, rd.1), (groundTruthKey, PyVal.str rd.2)]) =
      .ok l := by
  unfold csvJsonlLineEnc at h
  cases hd : jsonDumps true
      (.dict [(fileNameKey, rd.1), (groundTruthKey, PyVal.str rd.2)]) with
  | ok l' =>
    rw [hd] at h
    rw [(Except.ok.injEq l' l).mp h]
  | error e => rw [hd] at h; cases h

theorem buildRowData_ok_parts {cols : List (List Nat)} {row : List PyVal}
    {rd : PyVal × List Nat} (h : buildRowData cols row = .ok rd) :
    jsonDumps true (.dict (buildRowState cols row).2) = .ok rd.2 ∧
      rd.1 = (buildRowState cols row).1 := by
  unfold buildRowData at h
  cases hgt : jsonDumps true (.dict (buildRowState cols row).2) with
  | error e => rw [hgt] at h; cases h
  | ok gt =>
    rw [hgt] at h
    injection h with h2
    subst h2
    exact ⟨rfl, rfl⟩

theorem forall2_mem_right {α β : Type} {R : α → β → Prop} {as : List α} {bs : List β}
    (h : List.Forall₂ R as bs) {b : β} (hb : b ∈ bs) : ∃ a, a ∈ as ∧ R a b := by
  induction h with
  | nil => cases hb
  | cons hr hrest ih =>
    rcases List.mem_cons.mp hb with rfl | hmem
    · exact ⟨_, List.mem_cons_self _ _, hr⟩
    · obtain ⟨a, ha, har⟩ := ih hmem
      exact ⟨a, List.mem_cons_of_mem _ ha, har⟩

theorem forall2_imp_mem {α β : Type} {R S : α → β → Prop} {as : List α} {bs : List β}
    (h : List.Forall₂ R as bs) (him : ∀ a ∈ as, ∀ b ∈ bs, R a b → S a b) :
    List.Forall₂ S as bs := by
  induction h with
  | nil => exact .nil
  | cons hr hrest ih =>
    refine .cons (him _ (List.mem_cons_self _ _) _ (List.mem_cons_self _ _) hr) ?_
    exact ih (fun a ha b hb hr' =>
      him a (List.mem_cons_of_mem _ ha) b (List.mem_cons_of_mem _ hb) hr')

/-- Claim C1: for every CSV input the CSV to JSONL conversion accepts,
the metadata.jsonl text contains exactly one line per data row; each
line is the JSON encoding of an object with exactly the keys file_name
and ground_truth, where ground_truth is the JSON-encoded string of the
full column-to-value row mapping and file_name is the value of the
column literally named file_name, or null (None) when no such column
exists.  Well-formedness of the parsed table (distinct column labels,
rows matching the header width) is what the table reader guarantees. -/
theorem claim_c1 (env : Env) (f : UploadedFile) (url : List Nat) (df : DataFrame) (o : String)
    (hread : env.readCsvLatin1 f.content = .ok df)
    (hnodup : df.columns.Nodup)
    (hlen : ∀ r ∈ df.rows, df.columns.length = r.length)
    (hok : (dataset_converter env (some f) csvToJsonlLabel url).outcome = Except.ok o) :
    ∃ content,
      (dataset_converter env (some f) csvToJsonlLabel url).files =
        [(metadataJsonlFile, FileContent.text content)] ∧
      (textLines content).length = df.rows.length ∧
      List.Forall₂ (fun row line =>
        ∃ gt, jsonDumps true (.dict (df.columns.zip row)) = .ok gt ∧
          jsonDumps true (.dict [(fileNameKey,
              (if fileNameKey ∈ df.columns then rowLookup df.columns row fileNameKey
               else PyVal.noneV)),
            (groundTruthKey, PyVal.str gt)]) = .ok line)
        df.rows (textLines content) := by
  rw [converter_cj] at hok ⊢
  dsimp only at hok ⊢
  by_cases hext : extensionOf f.name ≠ csvExt
  · rw [if_pos hext] at hok
    cases hok
  · rw [if_neg hext] at hok ⊢
    rw [hread] at hok ⊢
    dsimp only at hok ⊢
    cases hbt : buildTotalData df.columns df.rows with
    | error e =>
      rw [hbt] at hok
      cases hok
    | ok total =>
      dsimp only at hok ⊢
      have hencs : ∀ rd ∈ total, ∃ l, csvJsonlLineEnc rd = .ok l := fun rd hrd => by
        obtain ⟨row, hrow⟩ := buildTotalData_mem hbt rd hrd
        exact buildRowData_ok_line hrow
      obtain ⟨ls, hfa, hwr⟩ := writeJsonLines_content csvJsonlLineEnc total hencs
      have hnl : ∀ l ∈ ls, 10 ∉ l := by
        intro l hl hmem10
        obtain ⟨rd, _, henc⟩ := forall2_mem_right hfa hl
        have := dumps_true_sane _ l (csvJsonlLineEnc_ok_dumps henc) 10 hmem10
        omega
      have hrows2 := buildTotalData_forall2 hbt
      refine ⟨joinNl ls, ?_, ?_, ?_⟩
      · rw [hwr]
      · rw [textLines_join ls hnl]
        rw [← List.Forall₂.length_eq hfa, ← List.Forall₂.length_eq hrows2]
      · rw [textLines_join ls hnl]
        refine forall2_imp_mem (forall2_comp hrows2 hfa) ?_
        intro row hrow line hline hrl
        obtain ⟨rd, hrd, henc⟩ := hrl
        obtain ⟨hgt, hfst⟩ := buildRowData_ok_parts hrd
        rw [buildRowState_data df.columns row hnodup,
          map_lookup_eq_zip df.columns row hnodup (hlen row hrow)] at hgt
        have hline2 := csvJsonlLineEnc_ok_dumps henc
        rw [hfst, buildRowState_fst] at hline2
        exact ⟨rd.2, hgt, hline2⟩

theorem claim_c1_witness :
    ∃ content,
      (dataset_converter envOk (some fileACsv) csvToJsonlLabel []).files =
        [(metadataJsonlFile, FileContent.text content)] ∧
      (textLines content).length = dfSample.rows.length ∧
      List.Forall₂ (fun row line =>
        ∃ gt, jsonDumps true (.dict (dfSample.columns.zip row)) = .ok gt ∧
          jsonDumps true (.dict [(fileNameKey,
              (if fileNameKey ∈ dfSample.columns then rowLookup dfSample.columns row fileNameKey
               else PyVal.noneV)),
            (groundTruthKey, PyVal.str gt)]) = .ok line)
        dfSample.rows (textLines content) :=
  claim_c1 envOk fileACsv [] dfSample metadataJsonlFile rfl (by simp [dfSample])
    (by intro r hr; simp [dfSample] at hr; subst hr; rfl) rfl

theorem writeJsonLines_ascii {α : Type} (enc : α → Except ConvError (List Nat))
    (hall : ∀ (r : α) (l : List Nat), enc r = .ok l → ∀ c ∈ l, c < 128) :
    ∀ rows : List α, ∀ c ∈ (writeJsonLines enc rows).2, c < 128 := by
  intro rows
  induction rows with
  | nil => intro c hc; cases hc
  | cons r rest ih =>
    intro c hc
    unfold writeJsonLines at hc
    cases hr : enc r with
    | error e => rw [hr] at hc; cases hc
    | ok l =>
      rw [hr] at hc
      dsimp only at hc
      rcases List.mem_append.mp hc with hcl | hct
      · exact hall r l hr c hcl
      · rcases List.mem_cons.mp hct with rfl | hct
        · omega
        · exact ih c hct

theorem csvLineEnc_ascii (rd : PyVal × List Nat) (l : List Nat)
    (h : csvJsonlLineEnc rd = .ok l) : ∀ c ∈ l, c < 128 :=
  fun c hc => (dumps_true_sane _ l (csvJsonlLineEnc_ok_dumps h) c hc).2

theorem jsonEscChar_high_notSpecial {c : Nat} (h : 127 < c) :
    (¬ c = 34) ∧ (¬ c = 92) ∧ (¬ c = 10) ∧ (¬ c = 13) ∧ (¬ c = 9) ∧
    (¬ c = 8) ∧ (¬ c = 12) ∧ (¬ c < 32) := by
  omega

theorem jsonEscChar_true_high {c : Nat} (h1 : 127 < c) (h2 : c < 65536) :
    jsonEscChar true c = 92 :: 117 :: hex4 c := by
  obtain ⟨n34, n92, n10, n13, n9, n8, n12, n32⟩ := jsonEscChar_high_notSpecial h1
  unfold jsonEscChar
  rw [if_neg n34, if_neg n92, if_neg n10, if_neg n13, if_neg n9, if_neg n8, if_neg n12,
    if_neg n32, if_pos ⟨rfl, by omega⟩, if_pos h2]

theorem jsonEscChar_false_high {c : Nat} (h1 : 127 < c) :
    jsonEscChar false c = [c] := by
  obtain ⟨n34, n92, n10, n13, n9, n8, n12, n32⟩ := jsonEscChar_high_notSpecial h1
  unfold jsonEscChar
  rw [if_neg n34, if_neg n92, if_neg n10, if_neg n13, if_neg n9, if_neg n8, if_neg n12,
    if_neg n32, if_neg ?hfalse]
  case hfalse =>
    intro hcontra
    cases hcontra.1

theorem escape_infix {s : List Nat} {c : Nat} (hc : c ∈ s) (h1 : 127 < c) (h2 : c < 65536) :
    List.IsInfix (92 :: 117 :: hex4 c) (jsonStr true s) := by
  obtain ⟨l1, l2, rfl⟩ := List.append_of_mem hc
  have hesc := jsonEscChar_true_high h1 h2
  unfold jsonStr
  rw [List.flatMap_append, List.flatMap_cons, hesc]
  refine ⟨34 :: l1.flatMap (jsonEscChar true),
    l2.flatMap (jsonEscChar true) ++ [34], ?_⟩
  simp [List.append_assoc]

theorem recSanitizeDict_mem {kvs : List (List Nat × PyVal)} {k : List Nat} {v : PyVal}
    (h : (k, v) ∈ kvs) : (k, recursive_sanitize v) ∈ recSanitizeDict kvs := by
  induction kvs with
  | nil => cases h
  | cons kv rest ih =>
    obtain ⟨k1, v1⟩ := kv
    rcases List.mem_cons.mp h with he | hmem
    · injection he with he1 he2
      subst he1
      subst he2
      exact List.mem_cons_self _ _
    · exact List.mem_cons_of_mem _ (ih hmem)

theorem dumpsDict_infix {ea : Bool} :
    ∀ {kvs : List (List Nat × PyVal)} {parts : List Nat} {k : List Nat} {v : PyVal},
    jsonDumpsDict ea kvs = .ok parts → (k, v) ∈ kvs →
    ∃ dv, jsonDumps ea v = .ok dv ∧ List.IsInfix dv parts := by
  intro kvs
  induction kvs with
  | nil => intro parts k v _ hm; cases hm
  | cons hd tl ih =>
    intro parts k v h hm
    obtain ⟨k1, v1⟩ := hd
    cases tl with
    | nil =>
      simp only [jsonDumpsDict] at h
      cases hv : jsonDumps ea v1 with
      | error e => rw [hv] at h; cases h
      | ok dv =>
        rw [hv] at h
        injection h with h2
        rcases List.mem_singleton.mp hm with he
        injection he with he1 he2
        subst he1
        subst he2
        refine ⟨dv, hv, ?_⟩
        rw [← h2]
        exact ⟨jsonStr ea k ++ codes (": "), [], by simp [List.append_assoc]⟩
    | cons kv2 tl2 =>
      simp only [jsonDumpsDict] at h
      cases hv : jsonDumps ea v1 with
      | error e =>
        rw [hv] at h
        cases hr : jsonDumpsDict ea (kv2 :: tl2) with
        | ok rest => rw [hr] at h; cases h
        | error e2 => rw [hr] at h; cases h
      | ok dv =>
        cases hr : jsonDumpsDict ea (kv2 :: tl2) with
        | error e2 => rw [hv, hr] at h; cases h
        | ok rest =>
          rw [hv, hr] at h
          injection h with h2
          rcases List.mem_cons.mp hm with he | hmem
          · injection he with he1 he2
            subst he1
            subst he2
            refine ⟨dv, hv, ?_⟩
            rw [← h2]
            exact ⟨jsonStr ea k ++ codes (": "), codes (", ") ++ rest,
              by simp [List.append_assoc]⟩
          · obtain ⟨dv2, hdv2, hinf⟩ := ih hr hmem
            refine ⟨dv2, hdv2, ?_⟩
            rw [← h2]
            have hsuf : List.IsInfix rest
                (jsonStr ea k1 ++ codes (": ") ++ dv ++ codes (", ") ++ rest) :=
              ⟨jsonStr ea k1 ++ codes (": ") ++ dv ++ codes (", "), [],
                by simp [List.append_assoc]⟩
            exact hinf.trans hsuf

theorem mem_jsonStr_false {s : List Nat} {c : Nat} (hc : c ∈ s) (h1 : 127 < c) :
    c ∈ jsonStr false s := by
  unfold jsonStr
  refine List.mem_cons_of_mem 34 (List.mem_append.mpr (Or.inl ?_))
  refine List.mem_flatMap.mpr ⟨c, hc, ?_⟩
  rw [jsonEscChar_false_high h1]
  exact List.mem_singleton.mpr rfl

theorem parquet_line_mem {rec : List (List Nat × PyVal)} {k s : List Nat} {c : Nat}
    {l : List Nat} (hmem : (k, PyVal.str s) ∈ rec) (hcs : c ∈ s) (hc : 127 < c)
    (h : parquetJsonlLineEnc rec = .ok l) : c ∈ l := by
  unfold parquetJsonlLineEnc at h
  have hs : recursive_sanitize (.dict rec) = .dict (recSanitizeDict rec) := rfl
  rw [hs] at h
  simp only [jsonDumps] at h
  cases hd : jsonDumpsDict false (recSanitizeDict rec) with
  | error e => rw [hd] at h; cases h
  | ok parts =>
    rw [hd] at h
    dsimp only at h
    injection h with h2
    have hmem2 : (k, PyVal.str s) ∈ recSanitizeDict rec := recSanitizeDict_mem hmem
    obtain ⟨dv, hdv, hinf⟩ := dumpsDict_infix hd hmem2
    simp only [jsonDumps] at hdv
    injection hdv with h3
    have hcdv : c ∈ dv := by
      rw [← h3]
      exact mem_jsonStr_false hcs hc
    rw [← h2]
    exact List.mem_cons_of_mem 123 (List.mem_append.mpr (Or.inl (hinf.subset hcdv)))

/-- Claim C10: the CSV to JSONL branch writes metadata.jsonl with ASCII
escaping: every character of the written text is ASCII, and a non-ASCII
character of a string value appears in the escaped form as the
six-character sequence backslash-u followed by its four hex digits;
the Parquet to JSONL branch writes without ASCII escaping: a non-ASCII
character of a string value appears verbatim in the written line.  The
two branches therefore encode such a character differently. -/
theorem claim_c10 :
    (∀ (env : Env) (f : Option UploadedFile) (url : List Nat) (content : List Nat),
      (dataset_converter env f csvToJsonlLabel url).files =
        [(metadataJsonlFile, FileContent.text content)] →
      ∀ c ∈ content, c < 128) ∧
    (∀ (s : List Nat) (c : Nat), c ∈ s → 127 < c → c < 65536 →
      List.IsInfix (92 :: 117 :: hex4 c) (jsonStr true s)) ∧
    (∀ (rec : List (List Nat × PyVal)) (k s : List Nat) (c : Nat) (l : List Nat),
      (k, PyVal.str s) ∈ rec → c ∈ s → 127 < c →
      parquetJsonlLineEnc rec = .ok l → c ∈ l) := by
  refine ⟨?_, ?_, ?_⟩
  · intro env f url content hfiles c hc
    rw [converter_cj] at hfiles
    rcases f with _ | f
    · cases hfiles
    dsimp only at hfiles
    by_cases hext : extensionOf f.name ≠ csvExt
    · rw [if_pos hext] at hfiles
      cases hfiles
    · rw [if_neg hext] at hfiles
      cases hread : env.readCsvLatin1 f.content with
      | error m => rw [hread] at hfiles; cases hfiles
      | ok df =>
        rw [hread] at hfiles
        dsimp only at hfiles
        cases hbt : buildTotalData df.columns df.rows with
        | error e => rw [hbt] at hfiles; cases hfiles
        | ok total =>
          rw [hbt] at hfiles
          dsimp only at hfiles
          injection hfiles with hhead _
          injection hhead with _ htext
          injection htext with hcontent
          rw [← hcontent] at hc
          exact writeJsonLines_ascii csvJsonlLineEnc csvLineEnc_ascii total c hc
  · intro s c hcs h1 h2
    exact escape_infix hcs h1 h2
  · intro rec k s c l hmem hcs hc h
    exact parquet_line_mem hmem hcs hc h

theorem claim_c10_witness :
    List.IsInfix (92 :: 117 :: hex4 233) (jsonStr true [233]) ∧
    (233 : Nat) ∈ [123, 34, 97, 34, 58, 32, 34, 233, 34, 125] :=
  ⟨claim_c10.2.1 [233] 233 (by decide) (by decide) (by decide),
   claim_c10.2.2 [(codes ("a"), PyVal.str [233])] (codes ("a")) [233] 233
     [123, 34, 97, 34, 58, 32, 34, 233, 34, 125]
     (List.mem_singleton.mpr rfl) (by decide) (by decide) rfl⟩

end DatasetsConvertor
